import Mathlib

/-!
FrameSender: a shallow embedding of `FrameSender.cpp`

The development follows the source file top to bottom:

* the frame store (`process_frames`, lines 64-97): size rounding, zero fill, clamp loop;
* the transport (`send_frame`, lines 50-62): the short-write retry loop;
* the two pacing loops (`run_playback_loop`, lines 99-112, and `run_vrr_loop`, lines 114-135);
* the command dispatcher (`handle_command`, lines 138-196) as a step function on the
  global variables of the program.

Machine integers are natural numbers reduced modulo `2 ^ 64` (`size_t` on the LP64 Linux
hosts that expose `/dev/xdma0_h2c_0`).  Clock readings are integers counted in nanoseconds.
-/

namespace FrameSender

/-! ## Machine arithmetic -/

/-- Number of values of a `size_t`. -/
def SIZE_MOD : Nat := 2 ^ 64

/-- The constant `DMA_ALIGNMENT` of line 19. -/
def DMA_ALIGNMENT : Nat := 4096

/-- Bitwise complement `~x` of a `size_t`. -/
def size_not (x : Nat) : Nat := SIZE_MOD - 1 - x % SIZE_MOD

/-- Conversion `static_cast<uint16_t>(v)` of an `int`. -/
def to_uint16 (v : Int) : Nat := (v % 65536).toNat

/-! ## Frame store: `process_frames` -/

/-- One entry of `frames_buffer`: the 16-bit words reachable through the `uint16_t*` of the
pair, and the byte count stored next to it. -/
structure Frame where
  words : List Nat
  padded_bytes : Nat
deriving DecidableEq, Repr

/-- Line 79: `total_bytes = num_elements * sizeof(uint16_t)`. -/
def total_bytes_of (num_elements : Nat) : Nat := (num_elements * 2) % SIZE_MOD

/-- Line 80: `padded_bytes = (total_bytes + DMA_ALIGNMENT - 1) & ~(DMA_ALIGNMENT - 1)`. -/
def padded_bytes_of (total_bytes : Nat) : Nat :=
  ((total_bytes + DMA_ALIGNMENT - 1) % SIZE_MOD) &&& size_not (DMA_ALIGNMENT - 1)

/-- Line 84, the HDF5 library call `H5Dread`: the elements of the dataset are stored, in
order, from the start of the buffer.  The buffer keeps its length: a dataset longer than the
buffer would write outside the allocation, which has no defined behaviour. -/
def H5Dread (data : List Nat) (buf : List Nat) : List Nat :=
  data.take buf.length ++ buf.drop data.length

/-- Lines 87-88: the clamp loop, `remaining` iterations left, loop variable `j`. -/
def clamp_loop (c : Nat) : (remaining : Nat) → (j : Nat) → List Nat → List Nat
  | 0, _, buf => buf
  | remaining + 1, j, buf =>
      clamp_loop c remaining (j + 1) (buf.set j (min (buf.getD j 0) c))

/-- Lines 78-91: the body of the dataset loop for one dataset holding the samples `data`,
on the path where `aligned_malloc` returns a buffer.  `num_elements` is `dims[0] * dims[1]`,
the number of samples of the dataset, in 64-bit arithmetic. -/
def process_block (clamp_value : Int) (data : List Nat) : Frame :=
  let num_elements := data.length % SIZE_MOD
  let total_bytes := total_bytes_of num_elements
  let padded_bytes := padded_bytes_of total_bytes
  let zeroed := List.replicate (padded_bytes / 2) 0
  let loaded := H5Dread data zeroed
  let aligned_frame :=
    if clamp_value ≥ 0 then clamp_loop (to_uint16 clamp_value) num_elements 0 loaded
    else loaded
  { words := aligned_frame, padded_bytes := padded_bytes }

/-- Lines 64-97: `process_frames`.  The file is `none` when `H5Fopen` fails (the function
throws), otherwise the list of its datasets in index order. -/
def process_frames (file : Option (List (List Nat))) (clamp_value : Int) :
    Option (List Frame) :=
  file.map (fun datasets => datasets.map (process_block clamp_value))

/-- Byte at offset `o` of a frame buffer (little-endian words, as on the host). -/
def Frame.byte (f : Frame) (o : Nat) : Nat :=
  let w := f.words.getD (o / 2) 0
  if o % 2 = 0 then w % 256 else w / 256 % 256

/-- The bytes of a frame that `send_frame` walks through: `padded_bytes` bytes from the
start of the buffer. -/
def Frame.bytes (f : Frame) : List Nat :=
  (List.range f.padded_bytes).map f.byte

/-! ## Transport: `send_frame` -/

/-- One call `write(fd, data + bytes_written, total_bytes - bytes_written)` of line 55: the
value of `bytes_written` at the call, the bytes offered, and the value returned. -/
structure WriteCall where
  offset : Nat
  offered : List Nat
  result : Int
deriving DecidableEq, Repr

/-- The bytes of a call that the sink took: the first `result` bytes offered. -/
def WriteCall.accepted (c : WriteCall) : List Nat := c.offered.take c.result.toNat

/-- The device behind `fd`: from its state and the bytes offered, the value `write` returns
and the next state of the device. -/
abbrev Sink (σ : Type) := σ → List Nat → Int × σ

/-- Lines 54-61: the `while (bytes_written < total_bytes)` loop.  `fuel` bounds the number
of iterations; `none` means the bound was reached with the loop still running. -/
def send_loop {σ : Type} (write : Sink σ) (data : List Nat) (total_bytes : Nat) :
    (fuel : Nat) → (bytes_written : Nat) → σ → Option (List WriteCall × σ)
  | 0, bytes_written, st =>
      if bytes_written < total_bytes then none else some ([], st)
  | fuel + 1, bytes_written, st =>
      if bytes_written < total_bytes then
        let offered := (data.drop bytes_written).take (total_bytes - bytes_written)
        let r := write st offered
        if r.1 < 0 then
          some ([⟨bytes_written, offered, r.1⟩], r.2)
        else
          match send_loop write data total_bytes fuel
              ((bytes_written + r.1.toNat) % SIZE_MOD) r.2 with
          | none => none
          | some (calls, st') => some (⟨bytes_written, offered, r.1⟩ :: calls, st')
      else some ([], st)

/-- Lines 50-62: `send_frame`, returning the write calls made and the final device state. -/
def send_frame {σ : Type} (write : Sink σ) (frame_info : Frame) (fuel : Nat) (st : σ) :
    Option (List WriteCall × σ) :=
  send_loop write frame_info.bytes frame_info.padded_bytes fuel 0 st

/-- Specification side: the log `calls` is the exchange with the device that starts in
state `st` and ends in state `st'`: the result recorded for each call is the value the device
returns for the bytes offered in the state the previous calls left it in. -/
def Served {σ : Type} (write : Sink σ) : σ → List WriteCall → σ → Prop
  | st, [], st' => st' = st
  | st, c :: rest, st' =>
      c.result = (write st c.offered).1 ∧ Served write (write st c.offered).2 rest st'

/-- A device that takes at most `chunk` bytes per call (and at least one when `chunk` is
positive); its state counts the calls. -/
def chunk_sink (chunk : Nat) : Sink Nat :=
  fun calls offered => ((min chunk offered.length : Nat), calls + 1)

/-! ## Fixed-rate loop: `run_playback_loop` -/

/-- What the environment contributes to one iteration of the fixed-rate loop: whether the
command thread stored `true` in `reset_flag` since the previous test of the flag, and the
time in nanoseconds taken by the work of the iteration (`send_frame` and the progress
line). -/
structure FixedInput where
  rst : Bool
  work_ns : Int
deriving DecidableEq, Repr

/-- Variables of `run_playback_loop`, the shared `reset_flag`, and the wall clock. -/
structure FixedState where
  idx : Nat
  next_time : Int
  now : Int
  reset_flag : Bool
deriving DecidableEq, Repr

/-- Record of one iteration: whether line 105 found the flag set, the value of `idx` used
for the send, the position `idx % frames_buffer.size()` sent, the value of `next_time` after
line 109, the clock when the work ended, the clock when `sleep_until` returned, and the
flag after the iteration. -/
structure FixedTick where
  observed : Bool
  idx : Nat
  frame : Nat
  deadline : Int
  sent_at : Int
  wake : Int
  reset_flag : Bool
deriving DecidableEq, Repr

/-- Lines 105-110: one pass through the body of the `while (!stop_flag.load())` loop over
`N` frames with the given period in nanoseconds. -/
def fixed_iteration (N : Nat) (period : Int) (s : FixedState) (inp : FixedInput) :
    FixedState × FixedTick :=
  let flag := s.reset_flag || inp.rst
  let idx := if flag then 0 else s.idx
  let flag' := if flag then false else flag
  let frame := idx % N
  let sent_at := s.now + inp.work_ns
  let idx' := (idx + 1) % SIZE_MOD
  let next_time := s.next_time + period
  let wake := max sent_at next_time
  ({ idx := idx', next_time := next_time, now := wake, reset_flag := flag' },
   { observed := flag, idx := idx, frame := frame, deadline := next_time,
     sent_at := sent_at, wake := wake, reset_flag := flag' })

/-- The loop of lines 104-111, one iteration per input, from a given state. -/
def fixed_loop (N : Nat) (period : Int) : FixedState → List FixedInput → List FixedTick
  | _, [] => []
  | s, inp :: rest =>
      (fixed_iteration N period s inp).2 :: fixed_loop N period (fixed_iteration N period s inp).1 rest

/-- Lines 99-112: `run_playback_loop` started at clock reading `t0` with the shared flag at
`reset_flag`; the loop runs one iteration per element of `inputs` before it sees
`stop_flag` set. -/
def run_playback_loop (N : Nat) (period : Int) (t0 : Int) (reset_flag : Bool)
    (inputs : List FixedInput) : List FixedTick :=
  fixed_loop N period { idx := 0, next_time := t0, now := t0, reset_flag := reset_flag } inputs

/-- Specification side: the most recent iteration, up to iteration `i`, at which the command
thread had set the reset flag; `none` when there is none. -/
def last_reset (inputs : List FixedInput) : Nat → Option Nat
  | 0 => if (inputs[0]?.map FixedInput.rst).getD false then some 0 else none
  | i + 1 =>
      if (inputs[i + 1]?.map FixedInput.rst).getD false then some (i + 1)
      else last_reset inputs i

/-- Specification side: the number of sends made before iteration `i` since the run started
or since the most recent iteration that saw the reset flag set, whichever is later. -/
def sends_since_reset (inputs : List FixedInput) (i : Nat) : Nat :=
  match last_reset inputs i with
  | some r => i - r
  | none => i

/-! ## Variable-rate loop: `run_vrr_loop` -/

/-- Line 120: `duration_cast<nanoseconds>(duration<double>(1.0 / fps))`, the period of the
rate `fps` as a whole number of nanoseconds: `1 / fps` seconds is `10 ^ 9 / fps`
nanoseconds, and the cast drops the fraction (rounding toward zero).  For a positive `int`
the double-precision quotient and product stay closer to `10 ^ 9 / fps` than that value is
to a neighbouring integer boundary, so this is the integer the cast yields.  A rate of 0
makes the cast undefined; the value given here for it is 0. -/
def period_ns (fps : Int) : Int := Int.tdiv 1000000000 fps

/-- Record of one send of the variable-rate loop: the position sent, the rate of the
segment in force, the clock reading `start`, and the instant `start + period` handed to
`sleep_until`. -/
structure VrrSend where
  frame : Nat
  fps : Int
  start : Int
  deadline : Int
deriving DecidableEq, Repr

/-- The send made when `calls` sends came before it and `frame_index` is the loop
variable: lines 123-129, with `period` the value computed at line 120. -/
def vrr_send (N : Nat) (clock : Nat → Int) (fps period : Int) (frame_index calls : Nat) :
    VrrSend :=
  { frame := frame_index % N, fps := fps, start := clock calls,
    deadline := clock calls + period }

/-- Lines 122-130: the `for` loop over one segment with `stop_flag` clear, `remaining`
iterations left.  `clock k` is the reading of the `k`-th call of `now()`.  Returns the
sends, `frame_index` and the number of clock readings taken so far. -/
def vrr_inner (N : Nat) (clock : Nat → Int) (fps period : Int) :
    (remaining : Nat) → (frame_index calls : Nat) → List VrrSend × Nat × Nat
  | 0, frame_index, calls => ([], frame_index, calls)
  | remaining + 1, frame_index, calls =>
      let r := vrr_inner N clock fps period remaining ((frame_index + 1) % SIZE_MOD) (calls + 1)
      (vrr_send N clock fps period frame_index calls :: r.1, r.2)

/-- Lines 118-134: `fuel` passes through the outer `while (!stop_flag.load())` loop. -/
def vrr_outer (vrr_pattern : List (Int × Int)) (N : Nat) (clock : Nat → Int) :
    (fuel : Nat) → (pattern_index frame_index calls : Nat) → List VrrSend
  | 0, _, _, _ => []
  | fuel + 1, pattern_index, frame_index, calls =>
      let seg := vrr_pattern.getD pattern_index (0, 0)
      let period := period_ns seg.1
      let r := vrr_inner N clock seg.1 period seg.2.toNat frame_index calls
      r.1 ++ vrr_outer vrr_pattern N clock fuel
        ((pattern_index + 1) % vrr_pattern.length) r.2.1 r.2.2

/-- Lines 114-135: `run_vrr_loop` with `stop_flag` clear during `fuel` passes through the
outer loop; the result lists the sends in the order they are made. -/
def run_vrr_loop (vrr_pattern : List (Int × Int)) (N : Nat) (clock : Nat → Int)
    (fuel : Nat) : List VrrSend :=
  vrr_outer vrr_pattern N clock fuel 0 0 0

/-- Specification side: the cyclic schedule of a pattern, in which each segment
`(rate, count)` contributes `count` consecutive slots, in pattern order; a slot holds the
rate of its segment. -/
def schedule (vrr_pattern : List (Int × Int)) : List Int :=
  vrr_pattern.flatMap (fun seg => List.replicate seg.2.toNat seg.1)

/-- Auxiliary: the segments visited by `fuel` passes through the outer loop from
`pattern_index`. -/
def visited (vrr_pattern : List (Int × Int)) : (fuel : Nat) → (pattern_index : Nat) →
    List (Int × Int)
  | 0, _ => []
  | fuel + 1, pattern_index =>
      vrr_pattern.getD pattern_index (0, 0) ::
        visited vrr_pattern fuel ((pattern_index + 1) % vrr_pattern.length)

/-- Auxiliary: the sends for the rates `rates`, numbered from `calls`, with `frame_index`
equal to the number of the send reduced modulo `2 ^ 64`. -/
def sends_of (N : Nat) (clock : Nat → Int) (calls : Nat) (rates : List Int) : List VrrSend :=
  (rates.enumFrom calls).map
    (fun p => vrr_send N clock p.2 (period_ns p.2) (p.1 % SIZE_MOD) p.1)

/-! ## Command dispatcher: `handle_command` -/

/-- The enumeration of line 32. -/
inductive PlaybackMode where
  | FixedRate
  | VRR
deriving DecidableEq, Repr

/-- The function a worker thread was started with. -/
inductive Worker where
  | playback_loop
  | vrr_loop
deriving DecidableEq, Repr

/-- A worker thread of the process: its identity and the function it runs. -/
structure Thread where
  id : Nat
  body : Worker
deriving DecidableEq, Repr

/-- The global variables of lines 21-33, with two bookkeeping fields: `alive`, the worker
threads that have been created and have not yet returned, and `spawned`, the number of
threads created so far.  `playback_thread` is `some id` exactly while the `std::thread`
object is joinable. -/
structure State where
  frame_rate : ℚ
  clamp_value : Int
  frames_buffer : List Frame
  vrr_pattern : List (Int × Int)
  vrr_pattern_string : List Char
  stop_flag : Bool
  reset_flag : Bool
  playback_thread : Option Nat
  mode : PlaybackMode
  alive : List Thread
  spawned : Nat
deriving DecidableEq, Repr

/-- What `handle_command` reads from outside the program: the datasets of the file at
`h5_path` (`none` when it cannot be opened) and the library conversions `std::stoi` and
`std::stod` (`none` when they throw). -/
structure Env where
  file : Option (List (List Nat))
  stoi : List Char → Option Int
  stod : List Char → Option ℚ

/-- The state in which `main` enters its command loop. -/
def initial_state (frame_rate : ℚ) : State :=
  { frame_rate := frame_rate, clamp_value := -1, frames_buffer := [], vrr_pattern := [],
    vrr_pattern_string := [], stop_flag := false, reset_flag := false,
    playback_thread := none, mode := PlaybackMode.FixedRate, alive := [], spawned := 0 }

/-- The call `playback_thread.join()`: it returns once the thread behind the handle has
returned, after which the handle is no longer joinable. -/
def join (s : State) : State :=
  match s.playback_thread with
  | none => s
  | some tid =>
      { s with alive := s.alive.filter (fun t => t.id ≠ tid), playback_thread := none }

/-- The assignment `playback_thread = std::thread(f)`: a new thread starts running `f`.
Assigning to a joinable `std::thread` calls `std::terminate`, which ends the process
(`none`). -/
def spawn (s : State) (f : Worker) : Option State :=
  match s.playback_thread with
  | some _ => none
  | none =>
      some { s with alive := { id := s.spawned, body := f } :: s.alive,
                    playback_thread := some s.spawned, spawned := s.spawned + 1 }

/-- Lines 153 and 159: `if (playback_thread.joinable()) { stop_flag.store(true);
playback_thread.join(); }`. -/
def stop_and_join (s : State) : State :=
  if s.playback_thread.isSome then join { s with stop_flag := true } else s

/-- Lines 154 and 160: `if (frames_buffer.empty()) frames_buffer = process_frames(h5_path)`;
`none` when `process_frames` throws. -/
def load_if_empty (env : Env) (s : State) : Option State :=
  if s.frames_buffer.isEmpty then
    (process_frames env.file s.clamp_value).map (fun frames => { s with frames_buffer := frames })
  else some s

/-- The C library predicate `isspace` in the "C" locale. -/
def isspace (c : Char) : Bool :=
  c.toNat = 32 || (9 ≤ c.toNat && c.toNat ≤ 13)

/-- Value of a run of decimal digits. -/
def digits_value (ds : List Char) : Int :=
  ds.foldl (fun acc d => acc * 10 + ((d.toNat : Int) - 48)) 0

/-- The `int` that a `%d` conversion stores for the value `v` read from the input: the C
library converts the digits as a `long` (64 bits, saturating at its two ends) and stores
the low 32 bits, read as a two's complement `int`. -/
def store_int (v : Int) : Int :=
  let l := max (-(2 ^ 63)) (min v (2 ^ 63 - 1))
  (l + 2 ^ 31) % 2 ^ 32 - 2 ^ 31

/-- One `%d` conversion of `sscanf`: white space is skipped, an optional sign and at least
one digit are read; returns the `int` stored and the rest of the input, `none` on a
matching failure. -/
def scan_int (s : List Char) : Option (Int × List Char) :=
  let s1 := s.dropWhile isspace
  let neg := s1.head? = some '-'
  let s2 := if s1.head? = some '-' ∨ s1.head? = some '+' then s1.tail else s1
  let ds := s2.takeWhile Char.isDigit
  if ds.isEmpty then none
  else some (store_int (if neg then - digits_value ds else digits_value ds),
    s2.dropWhile Char.isDigit)

/-- Line 170: `sscanf(pair.c_str(), "%d,%d", &fps, &cnt) == 2`, with the two values. -/
def sscanf_d_d (pair : List Char) : Option (Int × Int) :=
  match scan_int (pair.takeWhile (fun c => c.toNat ≠ 0)) with
  | none => none
  | some (fps, rest) =>
      match rest with
      | [] => none
      | c :: rest' =>
          if c = ',' then (scan_int rest').map (fun r => (fps, r.1)) else none

/-- The pieces that the calls `std::getline(ss, pair, ':')` of line 168 yield before the
first call that fails; `cur` holds, reversed, the characters of the piece being read. -/
def getline_pieces : List Char → (cur : List Char) → List (List Char)
  | [], cur => if cur.isEmpty then [] else [cur.reverse]
  | c :: cs, cur =>
      if c = ':' then cur.reverse :: getline_pieces cs [] else getline_pieces cs (c :: cur)

/-- Lines 168-173: the loop over the pieces, appending to `vrr_pattern`. -/
def parse_loop : List (List Char) → List (Int × Int) → List (Int × Int)
  | [], vrr_pattern => vrr_pattern
  | pair :: rest, vrr_pattern =>
      match sscanf_d_d pair with
      | some seg => parse_loop rest (vrr_pattern ++ [seg])
      | none => parse_loop rest vrr_pattern

/-- Lines 165-173: `vrr_pattern.clear()` and the parse of the pattern string. -/
def parse_pattern (vrr_pattern_string : List Char) : List (Int × Int) :=
  parse_loop (getline_pieces vrr_pattern_string []) []

/-- Lines 141-146: the `CLAMP` branch. -/
def cmd_CLAMP (env : Env) (s : State) (line : List Char) : Option State :=
  (env.stoi line).map (fun v => { s with clamp_value := v, frames_buffer := [] })

/-- Lines 148-151: the `CFR` branch. -/
def cmd_CFR (env : Env) (s : State) (line : List Char) : Option State :=
  (env.stod line).map (fun r => { s with frame_rate := r })

/-- Lines 153-157: the `PLY` branch. -/
def cmd_PLY (env : Env) (s : State) : Option State :=
  match load_if_empty env (stop_and_join s) with
  | none => none
  | some s2 =>
      spawn { s2 with mode := PlaybackMode.FixedRate, stop_flag := false } Worker.playback_loop

/-- Lines 159-179: the `VRR` branch; `line` is the line read at line 164. -/
def cmd_VRR (env : Env) (s : State) (line : List Char) : Option State :=
  match load_if_empty env (stop_and_join s) with
  | none => none
  | some s2 =>
      let s3 := { s2 with vrr_pattern_string := line, vrr_pattern := parse_pattern line }
      if s3.vrr_pattern.isEmpty then some s3
      else spawn { s3 with mode := PlaybackMode.VRR, stop_flag := false } Worker.vrr_loop

/-- Lines 181-182: the `STP` branch. -/
def cmd_STP (s : State) : State :=
  let s1 := { s with stop_flag := true }
  if s1.playback_thread.isSome then join s1 else s1

/-- Lines 138-196: `handle_command`.  `line` is the line that `std::getline(std::cin, _)`
returns if the branch prompts for one.  The result is `none` when the process ends in the
call: `exit(0)` in the `EXT` branch, or an exception that nothing catches. -/
def handle_command (env : Env) (s : State) (cmd line : List Char) : Option State :=
  let cmd := cmd.map Char.toUpper
  if cmd = "CLAMP".toList then cmd_CLAMP env s line
  else if cmd = "CFR".toList then cmd_CFR env s line
  else if cmd = "PLY".toList then cmd_PLY env s
  else if cmd = "VRR".toList then cmd_VRR env s line
  else if cmd = "STP".toList then some (cmd_STP s)
  else if cmd = "RST".toList then some { s with reset_flag := true }
  else if cmd = "HLP".toList then some s
  else if cmd = "EXT".toList then none
  else some s

/-- Lines 46-48: `signal_handler`. -/
def signal_handler (s : State) : State := { s with stop_flag := true }

/-- What can happen between two prompts: a command is handled, the signal handler of
lines 46-48 runs, or a worker that finds `stop_flag` set leaves its loop and returns. -/
inductive Event where
  | command (cmd line : List Char)
  | sigint
  | worker_return
deriving DecidableEq, Repr

/-- Effect of one event. -/
def step (env : Env) (s : State) : Event → Option State
  | Event.command cmd line => handle_command env s cmd line
  | Event.sigint => some (signal_handler s)
  | Event.worker_return => some (if s.stop_flag then { s with alive := s.alive.tail } else s)

/-- Effect of a sequence of events; `none` once the process has ended. -/
def run (env : Env) : State → List Event → Option State
  | s, [] => some s
  | s, e :: es =>
      match step env s e with
      | none => none
      | some s' => run env s' es

/-- An environment with a readable file of one three-sample dataset, in which `std::stoi`
and `std::stod` always throw. -/
def sample_env : Env :=
  { file := some [[1, 2, 3]], stoi := fun _ => none, stod := fun _ => none }

/-- The worker bookkeeping is coherent: at most one worker has not returned, and it is the
one the `playback_thread` handle refers to. -/
def Coherent (s : State) : Prop :=
  s.alive.length ≤ 1 ∧ ∀ t ∈ s.alive, s.playback_thread = some t.id

/-- The state reached from the initial one by `PLY`, `VRR` with the pattern `100,2:50,3`,
`RST` and `PLY` again, in `sample_env`. -/
def sample_final : State :=
  { frame_rate := 1000, clamp_value := -1, frames_buffer := [process_block (-1) [1, 2, 3]],
    vrr_pattern := [(100, 2), (50, 3)], vrr_pattern_string := "100,2:50,3".toList,
    stop_flag := false, reset_flag := true, playback_thread := some 2,
    mode := PlaybackMode.FixedRate,
    alive := [{ id := 2, body := Worker.playback_loop }], spawned := 3 }

/-- The state that `PLY` leaves behind when issued in `sample_final`. -/
def sample_restarted : State :=
  { sample_final with playback_thread := some 3,
                      alive := [{ id := 3, body := Worker.playback_loop }], spawned := 4 }

/-- The state reached from the initial one by `VRR` with the pattern `100,2:50,3`, in
`sample_env`: a variable-rate worker is running. -/
def vrr_running : State :=
  { frame_rate := 1000, clamp_value := -1, frames_buffer := [process_block (-1) [1, 2, 3]],
    vrr_pattern := [(100, 2), (50, 3)], vrr_pattern_string := "100,2:50,3".toList,
    stop_flag := false, reset_flag := false, playback_thread := some 0,
    mode := PlaybackMode.VRR,
    alive := [{ id := 0, body := Worker.vrr_loop }], spawned := 1 }

/-- The state that `VRR` with the input `abc` leaves behind when issued in `vrr_running`. -/
def vrr_rejected : State :=
  { frame_rate := 1000, clamp_value := -1, frames_buffer := [process_block (-1) [1, 2, 3]],
    vrr_pattern := [], vrr_pattern_string := "abc".toList,
    stop_flag := true, reset_flag := false, playback_thread := none,
    mode := PlaybackMode.VRR, alive := [], spawned := 1 }

/-- The state reached from the initial one by `VRR` with the pattern `0,0`, in
`sample_env`. -/
def vrr_zero : State :=
  { frame_rate := 1000, clamp_value := -1, frames_buffer := [process_block (-1) [1, 2, 3]],
    vrr_pattern := [(0, 0)], vrr_pattern_string := "0,0".toList,
    stop_flag := false, reset_flag := false, playback_thread := some 0,
    mode := PlaybackMode.VRR,
    alive := [{ id := 0, body := Worker.vrr_loop }], spawned := 1 }

/-! # Theorems -/

/-! ### Lemmas on the frame store -/

theorem and_align_mask (x : Nat) (hx : x < 2 ^ 64) :
    x &&& (2 ^ 64 - 1 - 4095) = x / 4096 * 4096 := by
  apply Nat.eq_of_testBit_eq
  intro i
  have h1 : (2 ^ 64 - 1 - 4095 : Nat) = 2 ^ 12 * (2 ^ 52 - 1) := by norm_num
  have h2 : (4096 : Nat) = 2 ^ 12 := by norm_num
  rw [Nat.testBit_and, h1, h2, Nat.mul_comm (x / 2 ^ 12) (2 ^ 12), Nat.testBit_mul_pow_two,
    Nat.testBit_mul_pow_two, Nat.testBit_two_pow_sub_one, ← Nat.shiftRight_eq_div_pow,
    Nat.testBit_shiftRight]
  by_cases hi : 12 ≤ i
  · simp only [hi, decide_True, Bool.true_and]
    have : 12 + (i - 12) = i := by omega
    rw [this]
    by_cases h64 : i < 64
    · have : i - 12 < 52 := by omega
      simp [this]
    · have hlt : x < 2 ^ i := lt_of_lt_of_le hx (Nat.pow_le_pow_right (by norm_num) (by omega))
      simp [Nat.testBit_lt_two_pow hlt]
  · simp [hi]

theorem padded_bytes_of_eq (t : Nat) :
    padded_bytes_of t = (t + 4095) % 2 ^ 64 / 4096 * 4096 := by
  unfold padded_bytes_of size_not DMA_ALIGNMENT SIZE_MOD
  have h : (t + 4096 - 1) = t + 4095 := by omega
  rw [h]
  have h2 : (4096 - 1) % 2 ^ 64 = 4095 := by norm_num
  rw [h2]
  exact and_align_mask _ (Nat.mod_lt _ (by norm_num))

theorem clamp_loop_length (c : Nat) (n j : Nat) (buf : List Nat) :
    (clamp_loop c n j buf).length = buf.length := by
  induction n generalizing j buf with
  | zero => rfl
  | succ n ih => simp [clamp_loop, ih]

theorem clamp_loop_getD (c : Nat) (n j : Nat) (buf : List Nat) (i : Nat) :
    (clamp_loop c n j buf).getD i 0 =
      if j ≤ i ∧ i < j + n then min (buf.getD i 0) c else buf.getD i 0 := by
  induction n generalizing j buf with
  | zero =>
      have h : ¬ (j ≤ i ∧ i < j + 0) := by omega
      rw [if_neg h, clamp_loop]
  | succ n ih =>
      rw [clamp_loop, ih]
      by_cases hij : i = j
      · subst hij
        have h1 : ¬ (i + 1 ≤ i ∧ i < i + 1 + n) := by omega
        have h2 : (i ≤ i ∧ i < i + (n + 1)) := by omega
        rw [if_neg h1, if_pos h2]
        by_cases hlen : i < buf.length
        · simp [List.getD_eq_getElem?_getD, List.getElem?_set, hlen]
        · have hlen2 : buf.length ≤ i := by omega
          simp [List.getD_eq_getElem?_getD, List.getElem?_set, hlen,
            List.getElem?_eq_none hlen2]
      · have hset : (buf.set j (min (buf.getD j 0) c)).getD i 0 = buf.getD i 0 := by
          simp [List.getD_eq_getElem?_getD, List.getElem?_set, Ne.symm hij]
        rw [hset]
        by_cases h : j + 1 ≤ i ∧ i < j + 1 + n
        · have h2 : (j ≤ i ∧ i < j + (n + 1)) := by omega
          rw [if_pos h, if_pos h2]
        · have h2 : ¬ (j ≤ i ∧ i < j + (n + 1)) := by omega
          rw [if_neg h, if_neg h2]

theorem H5Dread_getD_lt (data buf : List Nat) (i : Nat) (hi : i < data.length)
    (hfit : data.length ≤ buf.length) : (H5Dread data buf).getD i 0 = data.getD i 0 := by
  unfold H5Dread
  have h1 : i < (data.take buf.length).length := by simp; omega
  have h2 : i < buf.length := by omega
  simp [List.getD_eq_getElem?_getD, List.getElem?_append_left h1, List.getElem?_take, hi, h2]

theorem H5Dread_getD_ge (data : List Nat) (m : Nat) (i : Nat) (hi : data.length ≤ i) :
    (H5Dread data (List.replicate m 0)).getD i 0 = 0 := by
  unfold H5Dread
  have h1 : (List.take (List.replicate m 0).length data).length ≤ i := by
    simp only [List.length_take]; omega
  rw [List.getD_eq_getElem?_getD, List.getElem?_append_right h1, List.getElem?_drop,
    List.getElem?_replicate]
  split <;> rfl

theorem process_block_padded (clamp_value : Int) (data : List Nat) :
    (process_block clamp_value data).padded_bytes =
      padded_bytes_of (total_bytes_of (data.length % SIZE_MOD)) := by
  unfold process_block
  rfl

theorem process_block_words_length (clamp_value : Int) (data : List Nat) :
    (process_block clamp_value data).words.length =
      (process_block clamp_value data).padded_bytes / 2 := by
  unfold process_block
  simp only
  split
  · rw [clamp_loop_length]; simp [H5Dread]; omega
  · simp [H5Dread]; omega

theorem padded_no_wrap (n : Nat) (h : 2 * n + 4095 < 2 ^ 64) :
    padded_bytes_of (total_bytes_of (n % SIZE_MOD)) = (2 * n + 4095) / 4096 * 4096 := by
  have hn : n % SIZE_MOD = n := Nat.mod_eq_of_lt (by unfold SIZE_MOD; omega)
  have ht : total_bytes_of n = 2 * n := by
    unfold total_bytes_of
    rw [Nat.mod_eq_of_lt (by unfold SIZE_MOD; omega)]; omega
  rw [hn, ht, padded_bytes_of_eq, Nat.mod_eq_of_lt h]

/-! ### C4 -/

/-- C4: for a block of `n` 16-bit samples with logical size `L = 2 * n` and `L + 4095` below
`2 ^ 64`, the physical size computed by `process_frames` is `ceil (L / 4096) * 4096`: a
multiple of 4096, at least `L`, less than `L + 4096`, and the least such multiple. -/
theorem C4_physical_size_rounds_up (clamp_value : Int) (data : List Nat)
    (h : 2 * data.length + 4095 < 2 ^ 64) :
    (process_block clamp_value data).padded_bytes
        = (2 * data.length + 4095) / 4096 * 4096 ∧
      (process_block clamp_value data).padded_bytes
        = Nat.ceil ((2 * data.length : ℚ) / 4096) * 4096 ∧
      4096 ∣ (process_block clamp_value data).padded_bytes ∧
      2 * data.length ≤ (process_block clamp_value data).padded_bytes ∧
      (process_block clamp_value data).padded_bytes - 2 * data.length < 4096 := by
  rw [process_block_padded, padded_no_wrap _ h]
  refine ⟨rfl, ?_, Nat.dvd_mul_left _ _, ?_, ?_⟩
  · congr 1
    have hq1 : 2 * data.length ≤ (2 * data.length + 4095) / 4096 * 4096 := by omega
    have hq2 : (2 * data.length + 4095) / 4096 * 4096 < 2 * data.length + 4096 := by omega
    apply le_antisymm
    · by_contra hlt
      push_neg at hlt
      have hle : Nat.ceil ((2 * data.length : ℚ) / 4096) ≤ (2 * data.length + 4095) / 4096 - 1 := by
        omega
      rw [Nat.ceil_le, div_le_iff₀ (by norm_num)] at hle
      have hle2 : 2 * data.length ≤ ((2 * data.length + 4095) / 4096 - 1) * 4096 := by
        exact_mod_cast hle
      omega
    · rw [Nat.ceil_le, div_le_iff₀ (by norm_num)]
      exact_mod_cast hq1
  · omega
  · omega

/-- Witness of C4: a block of 3 samples (6 logical bytes) gets a 4096-byte frame. -/
theorem C4_physical_size_rounds_up_witness :
    (process_block (-1) [1, 2, 3]).padded_bytes = 4096 ∧
      4096 ∣ (process_block (-1) [1, 2, 3]).padded_bytes := by
  have h := C4_physical_size_rounds_up (-1) [1, 2, 3] (by norm_num)
  exact ⟨by rw [h.1]; rfl, h.2.2.1⟩

/-! ### C5 -/

theorem process_block_word (clamp_value : Int) (data : List Nat) (j : Nat)
    (hfit : 2 * data.length + 4095 < 2 ^ 64) (hj : j < data.length) :
    (process_block clamp_value data).words.getD j 0 =
      if clamp_value ≥ 0 then min (data.getD j 0) (to_uint16 clamp_value)
      else data.getD j 0 := by
  have hpad := padded_no_wrap _ hfit
  have hn : data.length % SIZE_MOD = data.length :=
    Nat.mod_eq_of_lt (by unfold SIZE_MOD; omega)
  have hlen : data.length ≤
      (List.replicate (padded_bytes_of (total_bytes_of (data.length % SIZE_MOD)) / 2) 0).length := by
    rw [List.length_replicate, hpad]; omega
  unfold process_block
  simp only
  split
  · rw [clamp_loop_getD, if_pos (by omega), H5Dread_getD_lt _ _ _ hj hlen]
  · rw [H5Dread_getD_lt _ _ _ hj hlen]

/-- C5: for a clamp level `c` in `[0, 65535]` the frame built by `process_frames` from a
block of `n` samples holds `min (s_j, c)` at each of its first `n` sample positions `j`; with
a negative `clamp_value` (no level set) it holds `s_j` itself.  The block is one that fits
the address space (`2 * n + 4095 < 2 ^ 64`). -/
theorem C5_clamp_is_min (clamp_value : Int) (datasets : List (List Nat)) (i j : Nat)
    (data : List Nat) (hi : datasets[i]? = some data)
    (hfit : 2 * data.length + 4095 < 2 ^ 64) (hj : j < data.length) :
    ∃ frames f, process_frames (some datasets) clamp_value = some frames ∧
      frames.length = datasets.length ∧ frames[i]? = some f ∧
      j < f.words.length ∧
      (0 ≤ clamp_value → clamp_value ≤ 65535 →
        f.words.getD j 0 = min (data.getD j 0) clamp_value.toNat) ∧
      (clamp_value < 0 → f.words.getD j 0 = data.getD j 0) := by
  refine ⟨datasets.map (process_block clamp_value), process_block clamp_value data, rfl,
    by simp, by simp [List.getElem?_map, hi], ?_, ?_, ?_⟩
  · rw [process_block_words_length, process_block_padded, padded_no_wrap _ hfit]
    omega
  · intro h0 h1
    rw [process_block_word _ _ _ hfit hj, if_pos h0]
    have : to_uint16 clamp_value = clamp_value.toNat := by
      unfold to_uint16
      rw [Int.emod_eq_of_lt h0 (by omega)]
    rw [this]
  · intro h0
    rw [process_block_word _ _ _ hfit hj, if_neg (by omega)]

/-- Witness of C5: clamp level 100 over the samples 7, 300, 100. -/
theorem C5_clamp_is_min_witness :
    ∃ frames f, process_frames (some [[7, 300, 100]]) 100 = some frames ∧
      frames.length = 1 ∧ frames[0]? = some f ∧ 1 < f.words.length ∧
      (f.words.getD 1 0 = 100) := by
  obtain ⟨frames, f, h1, h2, h3, h4, h5, _⟩ :=
    C5_clamp_is_min 100 [[7, 300, 100]] 0 1 [7, 300, 100] rfl (by norm_num) (by decide)
  exact ⟨frames, f, h1, h2, h3, h4, by simpa using h5 (by norm_num) (by norm_num)⟩

/-! ### C6 -/

/-- C6: in every frame built by `process_frames`, with or without a clamp level, every byte
at an offset from the logical size `2 * num_elements` up to the physical size is zero. -/
theorem C6_padding_is_zero (clamp_value : Int) (data : List Nat) (o : Nat)
    (hlo : 2 * data.length ≤ o) (hhi : o < (process_block clamp_value data).padded_bytes) :
    (process_block clamp_value data).byte o = 0 ∧
      o / 2 < (process_block clamp_value data).words.length := by
  have hw : (process_block clamp_value data).words.getD (o / 2) 0 = 0 := by
    unfold process_block
    simp only
    have hge : data.length ≤ o / 2 := by omega
    split
    · rw [clamp_loop_getD, if_neg, H5Dread_getD_ge _ _ _ hge]
      intro hcon
      have := Nat.mod_le data.length SIZE_MOD
      omega
    · exact H5Dread_getD_ge _ _ _ hge
  constructor
  · unfold Frame.byte
    simp only [hw]
    split <;> simp
  · rw [process_block_words_length]
    have hdvd : 4096 ∣ (process_block clamp_value data).padded_bytes := by
      rw [process_block_padded, padded_bytes_of_eq]
      exact Nat.dvd_mul_left _ _
    omega

/-- Witness of C6: three samples, clamp level 2; byte 6 (the first padding byte) and byte
4095 (the last one) are zero. -/
theorem C6_padding_is_zero_witness :
    (process_block 2 [1, 2, 3]).byte 6 = 0 ∧ (process_block 2 [1, 2, 3]).byte 4095 = 0 :=
  ⟨(C6_padding_is_zero 2 [1, 2, 3] 6 (by decide)
      (by rw [process_block_padded]; decide)).1,
   (C6_padding_is_zero 2 [1, 2, 3] 4095 (by decide)
      (by rw [process_block_padded]; decide)).1⟩

/-! ### C3 -/

theorem send_loop_complete {σ : Type} (write : Sink σ) (data : List Nat)
    (hsink : ∀ st offered, offered ≠ [] →
      1 ≤ (write st offered).1 ∧ (write st offered).1 ≤ offered.length)
    (hB : data.length < SIZE_MOD) :
    ∀ (fuel bw : Nat) (st : σ), bw ≤ data.length → data.length - bw ≤ fuel →
      ∃ calls st', send_loop write data data.length fuel bw st = some (calls, st') ∧
        (calls.map WriteCall.accepted).flatten = data.drop bw ∧
        Served write st calls st' ∧
        ∀ k c, calls[k]? = some c →
          c.offset = bw + ((calls.take k).map (fun d => d.result.toNat)).sum ∧
          c.offered = data.drop c.offset ∧
          c.offered.length = data.length - c.offset ∧
          1 ≤ c.result ∧ c.result ≤ c.offered.length := by
  intro fuel
  induction fuel with
  | zero =>
      intro bw st hbw hfuel
      have hnot : ¬ bw < data.length := by omega
      refine ⟨[], st, by simp [send_loop, hnot], ?_, rfl, by simp⟩
      simp [List.drop_eq_nil_of_le (show data.length ≤ bw by omega)]
  | succ fuel ih =>
      intro bw st hbw hfuel
      by_cases hlt : bw < data.length
      · have hoff : (data.drop bw).take (data.length - bw) = data.drop bw := by
          apply List.take_of_length_le; simp
        have hne : data.drop bw ≠ [] := by
          intro h
          have := congrArg List.length h
          simp at this
          omega
        obtain ⟨h1, h2⟩ := hsink st (data.drop bw) hne
        rw [List.length_drop] at h2
        have hr : ((write st (data.drop bw)).1.toNat : Int) = (write st (data.drop bw)).1 :=
          Int.toNat_of_nonneg (by omega)
        have hbw' : (bw + (write st (data.drop bw)).1.toNat) % SIZE_MOD
            = bw + (write st (data.drop bw)).1.toNat :=
          Nat.mod_eq_of_lt (by omega)
        obtain ⟨calls, st', hrun, hcat, hserved, hidx⟩ :=
          ih (bw + (write st (data.drop bw)).1.toNat) (write st (data.drop bw)).2
            (by omega) (by omega)
        refine ⟨⟨bw, data.drop bw, (write st (data.drop bw)).1⟩ :: calls, st', ?_, ?_,
          ⟨rfl, hserved⟩, ?_⟩
        · rw [send_loop, if_pos hlt]
          simp only [hoff]
          rw [if_neg (by omega), hbw', hrun]
        · simp only [List.map_cons, List.flatten_cons, WriteCall.accepted, hcat]
          rw [← List.drop_drop, List.take_append_drop]
        · intro k c hk
          cases k with
          | zero =>
              simp only [List.getElem?_cons_zero, Option.some.injEq] at hk
              subst hk
              simp
              omega
          | succ k =>
              simp only [List.getElem?_cons_succ] at hk
              obtain ⟨e1, e2, e3, e4, e5⟩ := hidx k c hk
              refine ⟨?_, e2, e3, e4, e5⟩
              rw [e1]
              simp
              omega
      · have hnot : ¬ bw < data.length := hlt
        refine ⟨[], st, by simp [send_loop, hnot], ?_, rfl, by simp⟩
        simp [List.drop_eq_nil_of_le (show data.length ≤ bw by omega)]

theorem Frame.bytes_length (f : Frame) : f.bytes.length = f.padded_bytes := by
  simp [Frame.bytes]

/-- C3: against a sink that never reports an error and accepts between 1 and all of the
bytes offered on each call, `send_frame` terminates for a frame of `B` physical bytes (any
iteration bound of at least `B` suffices).  The calls it returns are its exchange with the
sink: each result is the value the sink returned, in the state the earlier calls left it
in, and the state returned is the one after the last call.  Each call offers exactly the
bytes from the offset equal to the total accepted so far, `B` minus that offset of them;
and the accepted chunks, concatenated, are the `B` bytes of the frame in order. -/
theorem C3_send_frame_delivers_all {σ : Type} (write : Sink σ) (f : Frame)
    (hsink : ∀ st offered, offered ≠ [] →
      1 ≤ (write st offered).1 ∧ (write st offered).1 ≤ offered.length)
    (hB : f.padded_bytes < SIZE_MOD) (fuel : Nat) (hfuel : f.padded_bytes ≤ fuel) (st : σ) :
    ∃ calls st', send_frame write f fuel st = some (calls, st') ∧
      Served write st calls st' ∧
      (calls.map WriteCall.accepted).flatten = f.bytes ∧
      ((calls.map WriteCall.accepted).flatten).length = f.padded_bytes ∧
      ∀ k c, calls[k]? = some c →
        c.offset = ((calls.take k).map (fun d => (d.accepted).length)).sum ∧
        c.offered = f.bytes.drop c.offset ∧
        c.offered.length = f.padded_bytes - c.offset ∧
        1 ≤ c.result ∧ c.result ≤ c.offered.length := by
  have hlen := f.bytes_length
  obtain ⟨calls, st', hrun, hcat, hserved, hidx⟩ :=
    send_loop_complete write f.bytes hsink (by rw [hlen]; exact hB) fuel 0 st
      (Nat.zero_le _) (by rw [hlen]; omega)
  refine ⟨calls, st', ?_, hserved, by simpa using hcat, by rw [hcat]; simpa using hlen, ?_⟩
  · unfold send_frame
    rw [← hlen]
    exact hrun
  · intro k c hk
    obtain ⟨e1, e2, e3, e4, e5⟩ := hidx k c hk
    refine ⟨?_, e2, by rw [← hlen]; exact e3, e4, e5⟩
    rw [e1, Nat.zero_add]
    congr 1
    apply List.map_congr_left
    intro d hd
    obtain ⟨m, hm⟩ := List.getElem?_of_mem (List.mem_of_mem_take hd)
    obtain ⟨_, _, _, d4, d5⟩ := hidx m d hm
    simp only [WriteCall.accepted, List.length_take]
    omega

theorem chunk_sink_accepts (chunk : Nat) (hchunk : 1 ≤ chunk) (st : Nat) (offered : List Nat)
    (hne : offered ≠ []) :
    1 ≤ (chunk_sink chunk st offered).1 ∧
      (chunk_sink chunk st offered).1 ≤ offered.length := by
  have hpos : 0 < offered.length := List.length_pos.mpr hne
  simp only [chunk_sink]
  constructor <;> omega

/-- Witness of C3: the four bytes 1, 2, 2, 0 against a device taking at most 3 bytes per
call go out in two calls, the first offering all four bytes and accepting three, the second
offering the last one; the device has then counted two calls.  A 4096-byte frame against a
device taking at most 1000 bytes per call is delivered whole. -/
theorem C3_send_frame_delivers_all_witness :
    send_frame (chunk_sink 3) { words := [513, 2], padded_bytes := 4 } 4 0 =
        some ([{ offset := 0, offered := [1, 2, 2, 0], result := 3 },
               { offset := 3, offered := [0], result := 1 }], 2) ∧
    (∃ calls st', send_frame (chunk_sink 3) { words := [513, 2], padded_bytes := 4 } 4 0
        = some (calls, st') ∧ Served (chunk_sink 3) 0 calls st' ∧
      (calls.map WriteCall.accepted).flatten = [1, 2, 2, 0]) ∧
    (∃ calls st', send_frame (chunk_sink 1000) (process_block (-1) [1, 2, 3]) 4096 0
        = some (calls, st') ∧ Served (chunk_sink 1000) 0 calls st' ∧
      (calls.map WriteCall.accepted).flatten = (process_block (-1) [1, 2, 3]).bytes ∧
      ((calls.map WriteCall.accepted).flatten).length = 4096) := by
  have hp : (process_block (-1) [1, 2, 3]).padded_bytes = 4096 := by
    rw [process_block_padded]; decide
  refine ⟨by decide, ?_, ?_⟩
  · obtain ⟨calls, st', h1, h2, h3, _⟩ :=
      C3_send_frame_delivers_all (chunk_sink 3) { words := [513, 2], padded_bytes := 4 }
        (chunk_sink_accepts 3 (by decide)) (by decide) 4 (le_refl _) 0
    exact ⟨calls, st', h1, h2, by rw [h3]; decide⟩
  · obtain ⟨calls, st', h1, h2, h3, h4, _⟩ :=
      C3_send_frame_delivers_all (chunk_sink 1000) (process_block (-1) [1, 2, 3])
        (chunk_sink_accepts 1000 (by decide)) (by rw [hp]; decide) 4096 (by rw [hp]) 0
    exact ⟨calls, st', h1, h2, h3, by rw [h4, hp]⟩

/-! ### Fixed-rate loop: C1 and C9 -/

theorem last_reset_cons (inp : FixedInput) (rest : List FixedInput) (i : Nat) :
    last_reset (inp :: rest) (i + 1) =
      match last_reset rest i with
      | some r => some (r + 1)
      | none => if inp.rst then some 0 else none := by
  induction i with
  | zero =>
      simp only [last_reset, List.getElem?_cons_succ, List.getElem?_cons_zero, Option.map_some',
        Option.getD_some]
      by_cases h : (rest[0]?.map FixedInput.rst).getD false = true
      · simp [h]
      · simp [h]
  | succ i ih =>
      rw [last_reset, List.getElem?_cons_succ, ih]
      by_cases h : (rest[i + 1]?.map FixedInput.rst).getD false = true
      · simp [last_reset, h]
      · simp [last_reset, h]

theorem fixed_loop_length (N : Nat) (period : Int) (s : FixedState) (inputs : List FixedInput) :
    (fixed_loop N period s inputs).length = inputs.length := by
  induction inputs generalizing s with
  | nil => rfl
  | cons inp rest ih => simp [fixed_loop, ih]

theorem fixed_loop_index (N : Nat) (period : Int) (inputs : List FixedInput) :
    ∀ (s : FixedState) (a i : Nat), s.idx = a % SIZE_MOD → (s.reset_flag = true → a = 0) →
      i < inputs.length →
      ∃ t, (fixed_loop N period s inputs)[i]? = some t ∧
        t.idx = (match last_reset inputs i with
                  | some r => i - r
                  | none => a + i) % SIZE_MOD ∧
        t.frame = t.idx % N ∧ t.reset_flag = false ∧
        (t.observed = true → t.idx = 0) ∧
        ((inputs[i]?.map FixedInput.rst).getD false = true → t.observed = true) := by
  induction inputs with
  | nil => intro s a i _ _ hi; simp at hi
  | cons inp rest ih =>
      intro s a i hidx hflag hi
      cases i with
      | zero =>
          refine ⟨(fixed_iteration N period s inp).2, by simp [fixed_loop], ?_, rfl, ?_, ?_, ?_⟩
          · simp only [fixed_iteration, last_reset, List.getElem?_cons_zero, Option.map_some',
              Option.getD_some]
            cases hr : inp.rst
            · cases hf : s.reset_flag
              · simp [hidx]
              · simp [hflag hf]
            · simp
          · simp only [fixed_iteration]
            cases (s.reset_flag || inp.rst) <;> simp
          · simp only [fixed_iteration]
            intro h
            simp [h]
          · simp only [fixed_iteration, List.getElem?_cons_zero, Option.map_some',
              Option.getD_some]
            intro h
            simp [h]
      | succ i =>
          have hi' : i < rest.length := by simpa using hi
          have hs1 : (fixed_iteration N period s inp).1.idx =
              ((if (s.reset_flag || inp.rst) = true then 0 else a) + 1) % SIZE_MOD := by
            simp only [fixed_iteration]
            cases (s.reset_flag || inp.rst)
            · simp [hidx, Nat.add_mod]
            · simp
          have hs2 : (fixed_iteration N period s inp).1.reset_flag = true →
              (if (s.reset_flag || inp.rst) = true then 0 else a) + 1 = 0 := by
            simp only [fixed_iteration]
            cases (s.reset_flag || inp.rst) <;> simp
          obtain ⟨t, ht, h1, h2, h3, h4, h5⟩ :=
            ih (fixed_iteration N period s inp).1 _ i hs1 hs2 hi'
          refine ⟨t, by simpa [fixed_loop] using ht, ?_, h2, h3, h4, ?_⟩
          · rw [h1, last_reset_cons]
            cases hl : last_reset rest i with
            | some r =>
                simp only
                rw [Nat.add_sub_add_right]
            | none =>
                simp only
                cases hr : inp.rst
                · cases hf : s.reset_flag
                  · simp [Nat.add_assoc, Nat.add_comm 1 i]
                  · simp [hflag hf, Nat.add_comm 1 i]
                · simp [Nat.add_comm 1 i]
          · simpa using h5

theorem sends_since_reset_le (inputs : List FixedInput) (i : Nat) :
    sends_since_reset inputs i ≤ i := by
  unfold sends_since_reset
  cases last_reset inputs i with
  | none => exact le_refl _
  | some r => exact Nat.sub_le _ _

/-- C1: in `run_playback_loop` over `N >= 1` frames, the frame sent at iteration `i` is the
one at position `k mod N`, where `k` is the number of sends made since the run started or
since the most recent iteration that saw the reset flag set, whichever is later; `k` is
also the value of the running index at the send.  An iteration that sees the reset flag set
sends with index 0, hence frame 0, and the flag is clear after every iteration.  The run is
any run of at most `2 ^ 64` iterations, the number the 64-bit running index can count. -/
theorem C1_fixed_rate_index (N : Nat) (hN : 1 ≤ N) (period t0 : Int) (reset_flag : Bool)
    (inputs : List FixedInput) (hlen : inputs.length ≤ SIZE_MOD) (i : Nat)
    (hi : i < inputs.length) :
    ∃ t, (run_playback_loop N period t0 reset_flag inputs)[i]? = some t ∧
      t.frame < N ∧
      t.frame = sends_since_reset inputs i % N ∧
      t.idx = sends_since_reset inputs i ∧
      t.reset_flag = false ∧
      (t.observed = true → t.idx = 0 ∧ t.frame = 0) ∧
      ((inputs[i]?.map FixedInput.rst).getD false = true → t.observed = true) := by
  obtain ⟨t, ht, h1, h2, h3, h4, h5⟩ :=
    fixed_loop_index N period inputs
      { idx := 0, next_time := t0, now := t0, reset_flag := reset_flag } 0 i rfl
      (fun _ => rfl) hi
  have hlt : sends_since_reset inputs i < SIZE_MOD :=
    lt_of_le_of_lt (sends_since_reset_le inputs i) (lt_of_lt_of_le hi hlen)
  have hk : t.idx = sends_since_reset inputs i := by
    rw [h1, ← Nat.mod_eq_of_lt hlt]
    unfold sends_since_reset
    cases last_reset inputs i <;> simp
  refine ⟨t, ht, ?_, ?_, hk, h3, ?_, h5⟩
  · rw [h2]; exact Nat.mod_lt _ (by omega)
  · rw [h2, hk]
  · intro ho
    have := h4 ho
    exact ⟨this, by rw [h2, this]; exact Nat.zero_mod N⟩

/-- Witness of C1: three frames; eight sends (positions 0,1,2,0,1,2,0,1, the last three with
running index 5,6,7), a reset, and the next sends are at positions 0,1,2. -/
theorem C1_fixed_rate_index_witness :
    (∃ t, (run_playback_loop 3 1000000 0 false
        ([false, false, false, false, false, false, false, false, true, false, false].map
          (fun b => ⟨b, 1⟩)))[10]? = some t ∧ t.frame = 2 ∧ t.idx = 2) ∧
    (run_playback_loop 3 1000000 0 false
        ([false, false, false, false, false, false, false, false, true, false, false].map
          (fun b => ⟨b, 1⟩))).map (fun t => (t.idx, t.frame)) =
      [(0, 0), (1, 1), (2, 2), (3, 0), (4, 1), (5, 2), (6, 0), (7, 1),
       (0, 0), (1, 1), (2, 2)] := by
  constructor
  · obtain ⟨t, ht, _, h2, h3, _⟩ := C1_fixed_rate_index 3 (by decide) 1000000 0 false
      ([false, false, false, false, false, false, false, false, true, false, false].map
          (fun b => ⟨b, 1⟩)) (by unfold SIZE_MOD; simp) 10 (by decide)
    exact ⟨t, ht, by rw [h2]; decide, by rw [h3]; decide⟩
  · decide

theorem fixed_loop_overload (N : Nat) (period : Int) (inputs : List FixedInput)
    (hover : ∀ inp ∈ inputs, period < inp.work_ns) :
    ∀ (s : FixedState) (i : Nat), s.next_time ≤ s.now → i < inputs.length →
      ∃ t, (fixed_loop N period s inputs)[i]? = some t ∧
        t.deadline = s.next_time + (i + 1) * period ∧
        t.wake = s.now + ((inputs.take (i + 1)).map FixedInput.work_ns).sum ∧
        t.wake = t.sent_at := by
  induction inputs with
  | nil => intro s i _ hi; simp at hi
  | cons inp rest ih =>
      intro s i hs hi
      have hw : period < inp.work_ns := hover inp (List.mem_cons_self _ _)
      have hmax : max (s.now + inp.work_ns) (s.next_time + period) = s.now + inp.work_ns :=
        max_eq_left (by omega)
      cases i with
      | zero =>
          refine ⟨(fixed_iteration N period s inp).2, by simp [fixed_loop], ?_, ?_, ?_⟩
          · simp [fixed_iteration]
          · simp [fixed_iteration, hmax]
          · simp [fixed_iteration, hmax]
      | succ i =>
          have hi' : i < rest.length := by simpa using hi
          have hs' : (fixed_iteration N period s inp).1.next_time ≤
              (fixed_iteration N period s inp).1.now := by
            simp only [fixed_iteration, hmax]; omega
          obtain ⟨t, ht, h1, h2, h3⟩ :=
            ih (fun x hx => hover x (List.mem_cons_of_mem _ hx))
              (fixed_iteration N period s inp).1 i hs' hi'
          refine ⟨t, by simpa [fixed_loop] using ht, ?_, ?_, h3⟩
          · rw [h1]; simp only [fixed_iteration]; push_cast; ring
          · rw [h2]; simp only [fixed_iteration, hmax, List.take_succ_cons, List.map_cons,
              List.sum_cons]; ring

theorem sum_overrun_ge (period : Int) (l : List FixedInput)
    (hover : ∀ inp ∈ l, period < inp.work_ns) :
    (l.map FixedInput.work_ns).sum ≥ l.length * period + l.length := by
  induction l with
  | nil => simp
  | cons x xs ih =>
      have hx := hover x (List.mem_cons_self _ _)
      have := ih (fun y hy => hover y (List.mem_cons_of_mem _ hy))
      simp only [List.map_cons, List.sum_cons, List.length_cons]
      push_cast
      nlinarith

/-- Amended C9: with time in whole nanoseconds, a period `p > 0` and every iteration's
send taking longer than `p`, `run_playback_loop` never sleeps; after iteration `i` its
deadline `next_time` is the start time plus `(i + 1) * p` while the clock is the start time
plus the total time of the sends, so the lag `now - next_time` equals the sum of the overruns
of the iterations so far: it is at least `i + 1` and exceeds `p` from iteration `p` on. -/
theorem C9_overload_lag_accumulates (N : Nat) (period t0 : Int) (reset_flag : Bool)
    (hp : 0 < period) (inputs : List FixedInput)
    (hover : ∀ inp ∈ inputs, period < inp.work_ns) (i : Nat) (hi : i < inputs.length) :
    ∃ t, (run_playback_loop N period t0 reset_flag inputs)[i]? = some t ∧
      t.wake = t.sent_at ∧
      t.deadline = t0 + (i + 1) * period ∧
      t.wake = t0 + ((inputs.take (i + 1)).map FixedInput.work_ns).sum ∧
      t.wake - t.deadline =
        ((inputs.take (i + 1)).map (fun inp => inp.work_ns - period)).sum ∧
      t.wake - t.deadline ≥ i + 1 ∧
      (period ≤ i → t.wake - t.deadline > period) ∧
      t0 < t.deadline := by
  obtain ⟨t, ht, h1, h2, h3⟩ :=
    fixed_loop_overload N period inputs hover
      { idx := 0, next_time := t0, now := t0, reset_flag := reset_flag } i (le_refl _) hi
  have hlen : (inputs.take (i + 1)).length = i + 1 := by
    rw [List.length_take]; omega
  have hge := sum_overrun_ge period (inputs.take (i + 1))
    (fun x hx => hover x (List.mem_of_mem_take hx))
  rw [hlen] at hge
  have hsum : ((inputs.take (i + 1)).map (fun inp => inp.work_ns - period)).sum =
      ((inputs.take (i + 1)).map FixedInput.work_ns).sum - (i + 1) * period := by
    have : ∀ l : List FixedInput, (l.map (fun inp => inp.work_ns - period)).sum =
        (l.map FixedInput.work_ns).sum - l.length * period := by
      intro l
      induction l with
      | nil => simp
      | cons x xs ihx =>
          simp only [List.map_cons, List.sum_cons, List.length_cons, ihx]
          push_cast
          ring
    rw [this, hlen]
    push_cast
    ring
  have hlag : t.wake - t.deadline =
      ((inputs.take (i + 1)).map FixedInput.work_ns).sum - (i + 1) * period := by
    rw [h2, h1]; ring
  refine ⟨t, ht, h3, h1, h2, ?_, ?_, ?_, ?_⟩
  · rw [hsum, hlag]
  · rw [hlag]; push_cast at hge; linarith
  · intro hpi
    rw [hlag]; push_cast at hge; linarith
  · rw [h1]
    have : (0 : Int) < (i + 1) * period := mul_pos (by positivity) hp
    linarith

/-- Witness of C9 (amended): period 10, three sends of 30: the lags are 20, 40, 60. -/
theorem C9_overload_lag_accumulates_witness :
    (∃ t, (run_playback_loop 3 10 0 false [⟨false, 30⟩, ⟨false, 30⟩, ⟨false, 30⟩])[2]?
        = some t ∧ t.wake - t.deadline ≥ 3) ∧
      (run_playback_loop 3 10 0 false [⟨false, 30⟩, ⟨false, 30⟩, ⟨false, 30⟩]).map
        (fun t => t.wake - t.deadline) = [20, 40, 60] := by
  constructor
  · obtain ⟨t, ht, _, _, _, _, h, _, _⟩ :=
      C9_overload_lag_accumulates 3 10 0 false (by decide)
        [⟨false, 30⟩, ⟨false, 30⟩, ⟨false, 30⟩]
        (by intro inp h; simp at h; subst h; decide) 2 (by decide)
    exact ⟨t, ht, by simpa using h⟩
  · decide

/-- Counterexample to C9 as stated: with a period of 10 ns and two sends of 30 ns each
(every send longer than the period), the deadline is 20 ns, two periods, behind the clock
in the first iteration and 40 ns behind it in the second. -/
theorem C9_counterexample :
    (∀ inp ∈ [(⟨false, 30⟩ : FixedInput), ⟨false, 30⟩], (10 : Int) < inp.work_ns) ∧
      (run_playback_loop 3 10 0 false [⟨false, 30⟩, ⟨false, 30⟩]).map
        (fun t => (t.sent_at - t.deadline, t.wake - t.deadline)) = [(20, 20), (40, 40)] ∧
      ¬ (∀ t ∈ run_playback_loop 3 10 0 false [⟨false, 30⟩, ⟨false, 30⟩],
          t.wake - t.deadline ≤ 10) := by
  refine ⟨by decide, by decide, by decide⟩

/-! ### Variable-rate loop: C2 -/

theorem sends_of_append (N : Nat) (clock : Nat → Int) (c : Nat)
    (A B : List Int) :
    sends_of N clock c (A ++ B) =
      sends_of N clock c A ++ sends_of N clock (c + A.length) B := by
  simp [sends_of, List.enumFrom_append]

theorem sends_of_getElem? (N : Nat) (clock : Nat → Int) (c : Nat)
    (F : List Int) (j : Nat) :
    (sends_of N clock c F)[j]? =
      F[j]?.map (fun fps => vrr_send N clock fps (period_ns fps) ((c + j) % SIZE_MOD) (c + j)) := by
  simp only [sends_of, List.getElem?_map, List.getElem?_enumFrom, Option.map_map]
  rfl

theorem sends_of_length (N : Nat) (clock : Nat → Int) (c : Nat)
    (F : List Int) : (sends_of N clock c F).length = F.length := by
  simp [sends_of]

theorem vrr_inner_eq (N : Nat) (clock : Nat → Int) (fps : Int) :
    ∀ (n fi c : Nat), fi = c % SIZE_MOD →
      vrr_inner N clock fps (period_ns fps) n fi c =
        (sends_of N clock c (List.replicate n fps), (c + n) % SIZE_MOD, c + n) := by
  intro n
  induction n with
  | zero => intro fi c h; simp [vrr_inner, sends_of, h]
  | succ n ih =>
      intro fi c h
      have h1 : (fi + 1) % SIZE_MOD = (c + 1) % SIZE_MOD := by
        rw [h, Nat.add_mod, Nat.mod_mod, ← Nat.add_mod]
      rw [vrr_inner, ih _ _ h1]
      simp only [sends_of, List.replicate_succ, List.enumFrom_cons, List.map_cons, h]
      refine Prod.ext rfl (Prod.ext ?_ ?_)
      · simp only; congr 1; omega
      · simp only; omega

theorem vrr_outer_eq (vrr_pattern : List (Int × Int)) (N : Nat)
    (clock : Nat → Int) :
    ∀ (fuel pi fi c : Nat), fi = c % SIZE_MOD →
      vrr_outer vrr_pattern N clock fuel pi fi c =
        sends_of N clock c
          ((visited vrr_pattern fuel pi).flatMap
            (fun seg => List.replicate seg.2.toNat seg.1)) := by
  intro fuel
  induction fuel with
  | zero => intro pi fi c _; simp [vrr_outer, visited, sends_of]
  | succ fuel ih =>
      intro pi fi c h
      rw [vrr_outer]
      simp only [vrr_inner_eq N clock _ _ fi c h]
      rw [ih _ _ _ rfl, visited, List.flatMap_cons, sends_of_append, List.length_replicate]

theorem visited_getElem? (vrr_pattern : List (Int × Int)) :
    ∀ (fuel pi t : Nat), pi < vrr_pattern.length → t < fuel →
      (visited vrr_pattern fuel pi)[t]? = vrr_pattern[(pi + t) % vrr_pattern.length]? := by
  intro fuel
  induction fuel with
  | zero => intro pi t _ ht; omega
  | succ fuel ih =>
      intro pi t hpi ht
      have hpos : 0 < vrr_pattern.length := by omega
      cases t with
      | zero =>
          simp only [visited, List.getElem?_cons_zero, Nat.add_zero, Nat.mod_eq_of_lt hpi]
          rw [List.getD_eq_getElem?_getD, List.getElem?_eq_getElem hpi]
          rfl
      | succ t =>
          simp only [visited, List.getElem?_cons_succ]
          rw [ih _ t (Nat.mod_lt _ hpos) (by omega)]
          congr 1
          rw [Nat.add_mod, Nat.mod_mod, ← Nat.add_mod]
          congr 1
          omega

theorem visited_length (vrr_pattern : List (Int × Int)) (fuel pi : Nat) :
    (visited vrr_pattern fuel pi).length = fuel := by
  induction fuel generalizing pi with
  | zero => rfl
  | succ fuel ih => simp [visited, ih]

theorem flatten_replicate_getElem? {α : Type} (S : List α) :
    ∀ (m j : Nat), j < m * S.length → (List.replicate m S).flatten[j]? = S[j % S.length]? := by
  intro m
  induction m with
  | zero => intro j hj; simp at hj
  | succ m ih =>
      intro j hj
      rw [List.replicate_succ, List.flatten_cons]
      by_cases hlt : j < S.length
      · rw [List.getElem?_append_left hlt, Nat.mod_eq_of_lt hlt]
      · have hge : S.length ≤ j := by omega
        rw [List.getElem?_append_right hge, ih (j - S.length), Nat.mod_eq_sub_mod hge]
        rw [Nat.succ_mul] at hj
        omega

theorem flatMap_flatten_replicate {α β : Type} (f : α → List β) (P : List α) (m : Nat) :
    (List.replicate m P).flatten.flatMap f = (List.replicate m (P.flatMap f)).flatten := by
  induction m with
  | zero => rfl
  | succ m ih =>
      rw [List.replicate_succ, List.replicate_succ, List.flatten_cons, List.flatten_cons,
        List.flatMap_append, ih]

theorem visited_eq_take (vrr_pattern : List (Int × Int)) (hne : vrr_pattern ≠ []) (fuel : Nat) :
    visited vrr_pattern fuel 0 = List.take fuel (List.replicate fuel vrr_pattern).flatten := by
  have hpos : 0 < vrr_pattern.length := List.length_pos.mpr hne
  apply List.ext_getElem?
  intro t
  by_cases ht : t < fuel
  · rw [visited_getElem? _ _ _ _ hpos ht, List.getElem?_take, if_pos ht, Nat.zero_add,
      flatten_replicate_getElem?]
    calc t < fuel := ht
      _ ≤ fuel * vrr_pattern.length := Nat.le_mul_of_pos_right _ hpos
  · rw [List.getElem?_take, if_neg ht, List.getElem?_eq_none]
    rw [visited_length]; omega

theorem length_le_length_flatMap (l : List (Int × Int)) (hpos : ∀ seg ∈ l, 0 < seg.2) :
    l.length ≤ (l.flatMap (fun seg => List.replicate seg.2.toNat seg.1)).length := by
  induction l with
  | nil => simp
  | cons x xs ih =>
      have hx : 0 < x.2 := hpos x (List.mem_cons_self _ _)
      have := ih (fun y hy => hpos y (List.mem_cons_of_mem _ hy))
      simp only [List.flatMap_cons, List.length_append, List.length_replicate, List.length_cons]
      omega

theorem mem_flatten_replicate {α : Type} (P : List α) (m : Nat) (x : α)
    (hx : x ∈ (List.replicate m P).flatten) : x ∈ P := by
  rw [List.mem_flatten] at hx
  obtain ⟨l, hl, hxl⟩ := hx
  rw [(List.mem_replicate.mp hl).2] at hxl
  exact hxl

theorem schedule_length (vrr_pattern : List (Int × Int)) :
    (schedule vrr_pattern).length = (vrr_pattern.map (fun seg => seg.2.toNat)).sum := by
  unfold schedule
  rw [List.length_flatMap]
  congr 1
  apply List.map_congr_left
  intro seg _
  simp

theorem run_vrr_loop_getElem? (vrr_pattern : List (Int × Int)) (hne : vrr_pattern ≠ [])
    (hpos : ∀ seg ∈ vrr_pattern, 0 < seg.2) (N : Nat) (clock : Nat → Int) (j fuel : Nat)
    (hfuel : j < fuel) :
    ∃ r, (schedule vrr_pattern)[j % (schedule vrr_pattern).length]? = some r ∧
      (run_vrr_loop vrr_pattern N clock fuel)[j]? =
        some { frame := (j % SIZE_MOD) % N, fps := r, start := clock j,
               deadline := clock j + period_ns r } := by
  have hC : vrr_pattern.length ≤ (schedule vrr_pattern).length :=
    length_le_length_flatMap vrr_pattern hpos
  have hlen : 0 < vrr_pattern.length := List.length_pos.mpr hne
  have hCpos : 0 < (schedule vrr_pattern).length := by omega
  have hmod : j % (schedule vrr_pattern).length < (schedule vrr_pattern).length :=
    Nat.mod_lt _ hCpos
  refine ⟨(schedule vrr_pattern)[j % (schedule vrr_pattern).length],
    List.getElem?_eq_getElem hmod, ?_⟩
  unfold run_vrr_loop
  rw [vrr_outer_eq vrr_pattern N clock fuel 0 0 0 rfl, sends_of_getElem?,
    visited_eq_take vrr_pattern hne]
  have hsplit := List.take_append_drop fuel (List.replicate fuel vrr_pattern).flatten
  have hall : (List.take fuel (List.replicate fuel vrr_pattern).flatten).flatMap
        (fun seg => List.replicate seg.2.toNat seg.1) ++
      (List.drop fuel (List.replicate fuel vrr_pattern).flatten).flatMap
        (fun seg => List.replicate seg.2.toNat seg.1) =
      (List.replicate fuel (schedule vrr_pattern)).flatten := by
    rw [← List.flatMap_append, hsplit, flatMap_flatten_replicate]
    rfl
  have htake_len : (List.take fuel (List.replicate fuel vrr_pattern).flatten).length = fuel := by
    rw [← visited_eq_take vrr_pattern hne, visited_length]
  have hF : j < ((List.take fuel (List.replicate fuel vrr_pattern).flatten).flatMap
        (fun seg => List.replicate seg.2.toNat seg.1)).length := by
    have := length_le_length_flatMap (List.take fuel (List.replicate fuel vrr_pattern).flatten)
      (fun seg hseg => hpos seg
        (mem_flatten_replicate vrr_pattern fuel seg (List.mem_of_mem_take hseg)))
    omega
  have hget : ((List.take fuel (List.replicate fuel vrr_pattern).flatten).flatMap
        (fun seg => List.replicate seg.2.toNat seg.1))[j]? =
      (schedule vrr_pattern)[j % (schedule vrr_pattern).length]? := by
    rw [← List.getElem?_append_left hF, hall, flatten_replicate_getElem?]
    calc j < fuel := hfuel
      _ ≤ fuel * (schedule vrr_pattern).length := Nat.le_mul_of_pos_right _ hCpos
  rw [hget, List.getElem?_eq_getElem hmod]
  simp [vrr_send]

theorem period_ns_spec (r : Int) (hr : 0 < r) :
    0 ≤ period_ns r ∧ r * period_ns r ≤ 1000000000 ∧ 1000000000 < r * (period_ns r + 1) ∧
      (r ∣ 1000000000 → r * period_ns r = 1000000000) := by
  have he : period_ns r = 1000000000 / r := by
    unfold period_ns
    exact Int.tdiv_eq_ediv (by norm_num) (le_of_lt hr)
  rw [he]
  refine ⟨Int.ediv_nonneg (by norm_num) (le_of_lt hr), ?_, ?_, ?_⟩
  · have := Int.ediv_mul_le 1000000000 (ne_of_gt hr)
    linarith [mul_comm r (1000000000 / r)]
  · have := Int.lt_ediv_add_one_mul_self 1000000000 hr
    linarith [mul_comm r (1000000000 / r + 1)]
  · intro hd
    rw [mul_comm]
    exact Int.ediv_mul_cancel hd

/-- C2: for a non-empty pattern whose segments have positive rate and positive count,
`N >= 1` frames and no stop request, the `j`-th send of `run_vrr_loop` (any number of outer
passes above `j` produces it) sends the frame at position `j mod N` and is paced with the
period of the rate `r` of the segment that owns slot `j mod C` of the cyclic schedule (`C`
the sum of the counts): its deadline is its own start time plus that period.  The period is
`1 / r` seconds as line 120 computes it, a whole number `p` of nanoseconds with
`r * p <= 10 ^ 9 < r * (p + 1)`, exactly `10 ^ 9 / r` when `r` divides `10 ^ 9`.  The send
number `j` is below `2 ^ 64`, the number of sends the 64-bit frame index can count. -/
theorem C2_vrr_send_schedule (vrr_pattern : List (Int × Int)) (hne : vrr_pattern ≠ [])
    (hpos : ∀ seg ∈ vrr_pattern, 0 < seg.1 ∧ 0 < seg.2) (N : Nat) (hN : 1 ≤ N)
    (clock : Nat → Int) (j fuel : Nat) (hfuel : j < fuel) (hj : j < SIZE_MOD) :
    (schedule vrr_pattern).length = (vrr_pattern.map (fun seg => seg.2.toNat)).sum ∧
    ∃ r s, (schedule vrr_pattern)[j % (schedule vrr_pattern).length]? = some r ∧
      (run_vrr_loop vrr_pattern N clock fuel)[j]? = some s ∧
      s.frame = j % N ∧ s.frame < N ∧
      s.fps = r ∧ 0 < r ∧ s.start = clock j ∧ s.deadline = s.start + period_ns r ∧
      r * period_ns r ≤ 1000000000 ∧ 1000000000 < r * (period_ns r + 1) ∧
      (r ∣ 1000000000 → r * period_ns r = 1000000000) := by
  obtain ⟨r, hr, hs⟩ := run_vrr_loop_getElem? vrr_pattern hne (fun seg h => (hpos seg h).2)
    N clock j fuel hfuel
  have hrpos : 0 < r := by
    have hmem := List.getElem?_mem hr
    unfold schedule at hmem
    rw [List.mem_flatMap] at hmem
    obtain ⟨seg, hseg, hrseg⟩ := hmem
    rw [(List.mem_replicate.mp hrseg).2]
    exact (hpos seg hseg).1
  obtain ⟨_, p2, p3, p4⟩ := period_ns_spec r hrpos
  refine ⟨schedule_length vrr_pattern, r, _, hr, hs, ?_, Nat.mod_lt _ (by omega), rfl,
    hrpos, rfl, rfl, p2, p3, p4⟩
  simp only [Nat.mod_eq_of_lt hj]

/-- Witness of C2: the pattern `[(100, 2), (50, 3)]` over three frames gives two sends with
a period of 1/100 s (10 000 000 ns), three with a period of 1/50 s (20 000 000 ns), and then
repeats from the first segment. -/
theorem C2_vrr_send_schedule_witness :
    (∃ r s, (schedule [(100, 2), (50, 3)])[7 % (schedule [(100, 2), (50, 3)]).length]? = some r ∧
      (run_vrr_loop [(100, 2), (50, 3)] 3 (fun k => 5 * k) 8)[7]? = some s ∧
      s.frame = 1 ∧ s.fps = r ∧ r = 50 ∧ s.deadline = s.start + 20000000) ∧
    (run_vrr_loop [(100, 2), (50, 3)] 3 (fun k => 5 * k) 4).map
        (fun s => (s.frame, s.fps, s.deadline - s.start)) =
      [(0, 100, 10000000), (1, 100, 10000000), (2, 50, 20000000), (0, 50, 20000000),
       (1, 50, 20000000), (2, 100, 10000000), (0, 100, 10000000), (1, 50, 20000000),
       (2, 50, 20000000), (0, 50, 20000000)] := by
  constructor
  · obtain ⟨_, r, s, h1, h2, h3, _, h4, _, _, h5, _⟩ :=
      C2_vrr_send_schedule [(100, 2), (50, 3)] (by decide)
        (by intro seg h; simp at h; rcases h with h | h <;> subst h <;> decide)
        3 (by decide) (fun k => 5 * k) 7 8 (by decide) (by unfold SIZE_MOD; norm_num)
    have h50 : (schedule [(100, 2), (50, 3)])[7 % (schedule [(100, 2), (50, 3)]).length]?
        = some 50 := by decide
    rw [h50] at h1
    have hr : r = 50 := (Option.some.inj h1).symm
    refine ⟨r, s, by rw [h50, hr], h2, by rw [h3], h4, hr, ?_⟩
    rw [h5, hr]
    rfl
  · decide

/-! ### Command dispatcher: C7, C8, C10 -/

theorem coherent_alive_nil_of_not_joinable (s : State) (h : Coherent s)
    (hj : s.playback_thread = none) : s.alive = [] := by
  cases ha : s.alive with
  | nil => rfl
  | cons t ts =>
      have := h.2 t (by rw [ha]; exact List.mem_cons_self _ _)
      rw [hj] at this
      cases this

theorem stop_and_join_spec (s : State) (h : Coherent s) :
    (stop_and_join s).alive = [] ∧ (stop_and_join s).playback_thread = none ∧
      (stop_and_join s).spawned = s.spawned ∧
      (stop_and_join s).mode = s.mode ∧
      (stop_and_join s).frame_rate = s.frame_rate ∧
      (stop_and_join s).clamp_value = s.clamp_value ∧
      (stop_and_join s).reset_flag = s.reset_flag ∧
      (stop_and_join s).vrr_pattern = s.vrr_pattern ∧
      (stop_and_join s).frames_buffer = s.frames_buffer ∧
      (stop_and_join s).stop_flag = (s.stop_flag || s.playback_thread.isSome) := by
  unfold stop_and_join
  cases hp : s.playback_thread with
  | none =>
      simp [hp, coherent_alive_nil_of_not_joinable s h hp]
  | some tid =>
      have hfil : s.alive.filter (fun t => decide (t.id ≠ tid)) = [] := by
        rw [List.filter_eq_nil_iff]
        intro t ht
        have := h.2 t ht
        rw [hp] at this
        simp [Option.some.inj this]
      have hall : ∀ a ∈ s.alive, a.id = tid := by
        intro t ht
        have := h.2 t ht
        rw [hp] at this
        exact (Option.some.inj this).symm
      simp [join, hp, hfil]
      exact hall

theorem load_if_empty_spec (env : Env) (s s2 : State) (h : load_if_empty env s = some s2) :
    s2.alive = s.alive ∧ s2.playback_thread = s.playback_thread ∧ s2.spawned = s.spawned ∧
      s2.mode = s.mode ∧ s2.frame_rate = s.frame_rate ∧ s2.clamp_value = s.clamp_value ∧
      s2.reset_flag = s.reset_flag ∧ s2.vrr_pattern = s.vrr_pattern ∧
      s2.stop_flag = s.stop_flag := by
  unfold load_if_empty at h
  split at h
  · cases hf : process_frames env.file s.clamp_value with
    | none => rw [hf] at h; simp at h
    | some frames =>
        rw [hf] at h
        simp only [Option.map_some', Option.some.injEq] at h
        subst h
        simp
  · simp only [Option.some.injEq] at h
    subst h
    simp

theorem load_if_empty_isSome (env : Env) (s : State)
    (h : s.frames_buffer ≠ [] ∨ env.file.isSome = true) :
    ∃ s2, load_if_empty env s = some s2 := by
  unfold load_if_empty
  split
  · rename_i hempty
    rcases h with h | h
    · simp [List.isEmpty_iff] at hempty
      exact absurd hempty h
    · cases hf : env.file with
      | none => rw [hf] at h; simp at h
      | some d => exact ⟨_, by simp [process_frames]; rfl⟩
  · exact ⟨s, rfl⟩

theorem cmd_PLY_spec (env : Env) (s s' : State) (h : Coherent s)
    (hc : cmd_PLY env s = some s') :
    ∃ pre, pre.alive = [] ∧ pre.playback_thread = none ∧ pre.stop_flag = false ∧
      pre.mode = PlaybackMode.FixedRate ∧ pre.spawned = s.spawned ∧
      spawn pre Worker.playback_loop = some s' ∧
      s'.alive = [{ id := s.spawned, body := Worker.playback_loop }] ∧
      s'.playback_thread = some s.spawned ∧ s'.spawned = s.spawned + 1 := by
  unfold cmd_PLY at hc
  cases hl : load_if_empty env (stop_and_join s) with
  | none => rw [hl] at hc; simp at hc
  | some s2 =>
      rw [hl] at hc
      simp only at hc
      obtain ⟨a1, a2, a3, _⟩ := load_if_empty_spec env _ s2 hl
      obtain ⟨b1, b2, b3, _⟩ := stop_and_join_spec s h
      refine ⟨{ s2 with mode := PlaybackMode.FixedRate, stop_flag := false },
        by simp [a1, b1], by simp [a2, b2], rfl, rfl, by simp [a3, b3], hc, ?_⟩
      unfold spawn at hc
      simp only [a2, b2, Option.some.injEq] at hc
      subst hc
      simp [a1, b1, a3, b3]

theorem parse_loop_eq (pieces : List (List Char)) (acc : List (Int × Int)) :
    parse_loop pieces acc = acc ++ pieces.filterMap sscanf_d_d := by
  induction pieces generalizing acc with
  | nil => simp [parse_loop]
  | cons p ps ih =>
      rw [parse_loop]
      cases hp : sscanf_d_d p with
      | none => simp [ih, List.filterMap_cons, hp]
      | some seg => simp [ih, List.filterMap_cons, hp]

theorem cmd_VRR_spec (env : Env) (s : State) (line : List Char) (h : Coherent s)
    (hload : s.frames_buffer ≠ [] ∨ env.file.isSome = true) :
    ∃ s', cmd_VRR env s line = some s' ∧
      s'.vrr_pattern = parse_pattern line ∧ s'.vrr_pattern_string = line ∧
      s'.frame_rate = s.frame_rate ∧ s'.clamp_value = s.clamp_value ∧
      s'.reset_flag = s.reset_flag ∧
      (parse_pattern line = [] →
        s'.spawned = s.spawned ∧ s'.alive = [] ∧ s'.playback_thread = none ∧
        s'.mode = s.mode ∧ s'.stop_flag = (s.stop_flag || s.playback_thread.isSome)) ∧
      (parse_pattern line ≠ [] →
        s'.spawned = s.spawned + 1 ∧
        s'.alive = [{ id := s.spawned, body := Worker.vrr_loop }] ∧
        s'.playback_thread = some s.spawned ∧
        s'.mode = PlaybackMode.VRR ∧ s'.stop_flag = false ∧
        ∃ pre, pre.alive = [] ∧ pre.playback_thread = none ∧
          spawn pre Worker.vrr_loop = some s') := by
  obtain ⟨b1, b2, b3, b4, b5, b6, b7, b8, _, b10⟩ := stop_and_join_spec s h
  have hload' : (stop_and_join s).frames_buffer ≠ [] ∨ env.file.isSome = true := by
    rcases hload with hl | hl
    · left; rw [(stop_and_join_spec s h).2.2.2.2.2.2.2.2.1]; exact hl
    · right; exact hl
  obtain ⟨s2, hl⟩ := load_if_empty_isSome env (stop_and_join s) hload'
  obtain ⟨a1, a2, a3, a4, a5, a6, a7, a8, a9⟩ := load_if_empty_spec env _ s2 hl
  unfold cmd_VRR
  rw [hl]
  simp only
  by_cases hp : parse_pattern line = []
  · refine ⟨_, by simp [hp]; rfl, ?_⟩
    simp [hp, a1, a2, a3, a4, a5, a6, a7, a9, b1, b2, b3, b4, b5, b6, b7, b10]
  · have hne : (parse_pattern line).isEmpty = false := by
      cases hq : parse_pattern line with
      | nil => exact absurd hq hp
      | cons _ _ => rfl
    simp only [hne, Bool.false_eq_true, if_false]
    unfold spawn
    simp only [a2, b2]
    refine ⟨_, rfl, ?_⟩
    simp only [hp, a1, a3, a5, a6, a7, b1, b3, b5, b6, b7]
    simp
    intro _
    exact ⟨{ s2 with vrr_pattern_string := line, vrr_pattern := parse_pattern line,
                     mode := PlaybackMode.VRR, stop_flag := false },
      by simp [a1, b1], by simp [a2, b2],
      by simp [a2, b2, a1, b1, a3, b3, a5, b5, a6, b6, a7, b7]⟩

theorem run_sample_final :
    run sample_env (initial_state 1000)
      [Event.command "ply".toList [], Event.command "VRR".toList "100,2:50,3".toList,
       Event.command "rst".toList [], Event.command "PLY".toList []] = some sample_final := by
  rfl

theorem handle_sample_restarted :
    handle_command sample_env sample_final "ply".toList [] = some sample_restarted := by
  rfl

theorem run_vrr_running :
    run sample_env (initial_state 1000) [Event.command "VRR".toList "100,2:50,3".toList]
      = some vrr_running := by
  rfl

theorem handle_vrr_rejected :
    handle_command sample_env vrr_running "VRR".toList "abc".toList = some vrr_rejected := by
  rfl

theorem handle_vrr_zero :
    handle_command sample_env (initial_state 1000) "VRR".toList "0,0".toList = some vrr_zero := by
  rfl

theorem load_if_empty_some_imp (env : Env) (s s2 : State) (h : load_if_empty env s = some s2) :
    s.frames_buffer ≠ [] ∨ env.file.isSome = true := by
  unfold load_if_empty at h
  split at h
  · right
    cases hf : env.file with
    | none => rw [hf] at h; simp [process_frames] at h
    | some d => rfl
  · rename_i hne
    left
    intro hnil
    rw [hnil] at hne
    exact hne rfl

theorem cmd_VRR_some_imp (env : Env) (s s' : State) (line : List Char)
    (hc : cmd_VRR env s line = some s') (hs : Coherent s) :
    s.frames_buffer ≠ [] ∨ env.file.isSome = true := by
  unfold cmd_VRR at hc
  cases hl : load_if_empty env (stop_and_join s) with
  | none => rw [hl] at hc; simp at hc
  | some s2 =>
      rcases load_if_empty_some_imp env _ s2 hl with h | h
      · left; rw [← (stop_and_join_spec s hs).2.2.2.2.2.2.2.2.1]; exact h
      · right; exact h

theorem coherent_initial (frame_rate : ℚ) : Coherent (initial_state frame_rate) := by
  constructor
  · simp [initial_state]
  · intro t ht; simp [initial_state] at ht

theorem cmd_STP_coherent (s : State) (hs : Coherent s) : Coherent (cmd_STP s) := by
  unfold cmd_STP
  cases hp : s.playback_thread with
  | none =>
      have ha := coherent_alive_nil_of_not_joinable s hs hp
      simp only [hp, Option.isSome_none, Bool.false_eq_true, if_false]
      constructor
      · simp [ha]
      · intro t ht; simp [ha] at ht
  | some tid =>
      simp only [hp, Option.isSome_some, if_true, join]
      have hfil : s.alive.filter (fun t => decide (t.id ≠ tid)) = [] := by
        rw [List.filter_eq_nil_iff]
        intro t ht
        have := hs.2 t ht
        rw [hp] at this
        simp [Option.some.inj this]
      constructor
      · dsimp only; rw [hfil]; simp
      · intro t ht; dsimp only at ht; rw [hfil] at ht; simp at ht

theorem handle_command_coherent (env : Env) (s s' : State) (cmd line : List Char)
    (hs : Coherent s) (hc : handle_command env s cmd line = some s') : Coherent s' := by
  unfold handle_command at hc
  simp only at hc
  split_ifs at hc with h1 h2 h3 h4 h5 h6 h7 h8
  · unfold cmd_CLAMP at hc
    cases hv : env.stoi line with
    | none => rw [hv] at hc; simp at hc
    | some v =>
        rw [hv] at hc
        simp only [Option.map_some', Option.some.injEq] at hc
        subst hc
        exact hs
  · unfold cmd_CFR at hc
    cases hv : env.stod line with
    | none => rw [hv] at hc; simp at hc
    | some v =>
        rw [hv] at hc
        simp only [Option.map_some', Option.some.injEq] at hc
        subst hc
        exact hs
  · obtain ⟨_, _, _, _, _, _, _, ha, hp, _⟩ := cmd_PLY_spec env s s' hs hc
    constructor
    · rw [ha]; simp
    · intro t ht
      rw [ha] at ht
      simp only [List.mem_singleton] at ht
      rw [hp, ht]
  · have hload := cmd_VRR_some_imp env s s' line hc hs
    obtain ⟨s'', hc', _, _, _, _, _, hempty, hne⟩ := cmd_VRR_spec env s line hs hload
    rw [hc] at hc'
    have hss : s' = s'' := Option.some.inj hc'
    subst hss
    by_cases hp : parse_pattern line = []
    · obtain ⟨_, ha, _⟩ := hempty hp
      constructor
      · rw [ha]; simp
      · intro t ht; rw [ha] at ht; simp at ht
    · obtain ⟨_, ha, hpt, _⟩ := hne hp
      constructor
      · rw [ha]; simp
      · intro t ht
        rw [ha] at ht
        simp only [List.mem_singleton] at ht
        rw [hpt, ht]
  · simp only [Option.some.injEq] at hc
    subst hc
    exact cmd_STP_coherent s hs
  · simp only [Option.some.injEq] at hc
    subst hc
    exact hs
  · simp only [Option.some.injEq] at hc
    subst hc
    exact hs
  · simp only [Option.some.injEq] at hc
    subst hc
    exact hs

theorem step_coherent (env : Env) (s s' : State) (e : Event) (hs : Coherent s)
    (hc : step env s e = some s') : Coherent s' := by
  cases e with
  | command cmd line => exact handle_command_coherent env s s' cmd line hs hc
  | sigint =>
      simp only [step, signal_handler, Option.some.injEq] at hc
      subst hc
      exact hs
  | worker_return =>
      simp only [step, Option.some.injEq] at hc
      subst hc
      split
      · constructor
        · have := hs.1
          simp only [List.length_tail]
          omega
        · intro t ht
          exact hs.2 t (List.mem_of_mem_tail ht)
      · exact hs

theorem run_coherent (env : Env) (events : List Event) :
    ∀ (s s' : State), Coherent s → run env s events = some s' → Coherent s' := by
  induction events with
  | nil =>
      intro s s' hs h
      simp only [run, Option.some.injEq] at h
      subst h
      exact hs
  | cons e es ih =>
      intro s s' hs h
      rw [run] at h
      cases he : step env s e with
      | none => rw [he] at h; simp at h
      | some s1 =>
          rw [he] at h
          exact ih s1 s' (step_coherent env s s1 e hs he) h

/-- C7: after every sequence of events from the idle state (the commands, the interrupt
signal, a worker returning) at most one playback worker is alive, and a `PLY` or `VRR`
command handled in such a state either creates no worker or creates it from a state in which
no worker is alive and the handle is not joinable, the new worker being the only one alive
afterwards. -/
theorem C7_at_most_one_worker (env : Env) (frame_rate : ℚ) (events : List Event) (s : State)
    (hrun : run env (initial_state frame_rate) events = some s) :
    s.alive.length ≤ 1 ∧
      ∀ (cmd line : List Char) (s' : State),
        (cmd.map Char.toUpper = "PLY".toList ∨ cmd.map Char.toUpper = "VRR".toList) →
        handle_command env s cmd line = some s' →
        s'.alive.length ≤ 1 ∧
        ((s'.spawned = s.spawned ∧ s'.alive = []) ∨
          ∃ pre f, pre.alive = [] ∧ pre.playback_thread = none ∧
            spawn pre f = some s' ∧ s'.alive = [{ id := s.spawned, body := f }]) := by
  have hs : Coherent s := run_coherent env events _ s (coherent_initial frame_rate) hrun
  refine ⟨hs.1, ?_⟩
  intro cmd line s' hcmd hc
  refine ⟨(handle_command_coherent env s s' cmd line hs hc).1, ?_⟩
  rcases hcmd with hply | hvrr
  · have hc' : cmd_PLY env s = some s' := by
      unfold handle_command at hc
      simp only [hply] at hc
      exact hc
    obtain ⟨pre, p1, p2, _, _, _, p6, p7, _⟩ := cmd_PLY_spec env s s' hs hc'
    exact Or.inr ⟨pre, Worker.playback_loop, p1, p2, p6, p7⟩
  · have hc' : cmd_VRR env s line = some s' := by
      unfold handle_command at hc
      simp only [hvrr] at hc
      exact hc
    have hload := cmd_VRR_some_imp env s s' line hc' hs
    obtain ⟨s'', hc'', _, _, _, _, _, hempty, hne⟩ := cmd_VRR_spec env s line hs hload
    rw [hc'] at hc''
    have hss : s' = s'' := Option.some.inj hc''
    subst hss
    by_cases hp : parse_pattern line = []
    · obtain ⟨h1, h2, _⟩ := hempty hp
      exact Or.inl ⟨h1, h2⟩
    · obtain ⟨_, ha, _, _, _, pre, p1, p2, p3⟩ := hne hp
      exact Or.inr ⟨pre, Worker.vrr_loop, p1, p2, p3, ha⟩

/-- Witness of C7: `PLY`, `VRR` with `100,2:50,3`, `RST`, `PLY` leaves exactly one worker,
the third one created; a further `PLY` replaces it by the fourth, created with none alive. -/
theorem C7_at_most_one_worker_witness :
    sample_final.alive.length ≤ 1 ∧
      sample_final.alive = [{ id := 2, body := Worker.playback_loop }] ∧
      sample_restarted.alive.length ≤ 1 ∧
      ((sample_restarted.spawned = sample_final.spawned ∧ sample_restarted.alive = []) ∨
        ∃ pre f, pre.alive = [] ∧ pre.playback_thread = none ∧
          spawn pre f = some sample_restarted ∧
          sample_restarted.alive = [{ id := sample_final.spawned, body := f }]) :=
  ⟨(C7_at_most_one_worker sample_env 1000 _ sample_final run_sample_final).1, rfl,
   (C7_at_most_one_worker sample_env 1000 _ sample_final run_sample_final).2
      "ply".toList [] sample_restarted (Or.inl (by decide)) handle_sample_restarted⟩

theorem handle_command_VRR (env : Env) (s : State) (line : List Char) :
    handle_command env s "VRR".toList line = cmd_VRR env s line := by
  rfl

/-- Amended C8: in every reachable state whose frames are loaded or can be loaded, the
`VRR` command with an input that yields zero valid segments returns without creating a
worker and leaves the mode, the frame rate, the clamp level and the reset flag as they
were; but it has stopped and joined any worker that was running (no worker is alive
afterwards, and the stop flag is set if the handle was joinable), and the stored pattern is
empty afterwards.  When no worker handle was joinable, the alive set and the stop flag are
unchanged. -/
theorem C8_invalid_vrr_input (env : Env) (frame_rate : ℚ) (events : List Event) (s : State)
    (line : List Char) (hrun : run env (initial_state frame_rate) events = some s)
    (hload : s.frames_buffer ≠ [] ∨ env.file.isSome = true)
    (hinvalid : parse_pattern line = []) :
    ∃ s', handle_command env s "VRR".toList line = some s' ∧
      s'.spawned = s.spawned ∧ s'.mode = s.mode ∧ s'.frame_rate = s.frame_rate ∧
      s'.clamp_value = s.clamp_value ∧ s'.reset_flag = s.reset_flag ∧
      s'.alive = [] ∧ s'.playback_thread = none ∧ s'.vrr_pattern = [] ∧
      s'.stop_flag = (s.stop_flag || s.playback_thread.isSome) ∧
      (s.playback_thread = none → s'.alive = s.alive ∧ s'.stop_flag = s.stop_flag) := by
  have hs : Coherent s := run_coherent env events _ s (coherent_initial frame_rate) hrun
  obtain ⟨s', hc, hpat, _, hfr, hcl, hrf, hempty, _⟩ := cmd_VRR_spec env s line hs hload
  obtain ⟨e1, e2, e3, e4, e5⟩ := hempty hinvalid
  refine ⟨s', by rw [handle_command_VRR]; exact hc, e1, e4, hfr, hcl, hrf, e2, e3,
    by rw [hpat, hinvalid], e5, ?_⟩
  intro hnone
  refine ⟨by rw [e2, coherent_alive_nil_of_not_joinable s hs hnone], ?_⟩
  rw [e5, hnone]
  simp

/-- Witness of C8 (amended): `VRR` with the input `abc` while a variable-rate worker runs. -/
theorem C8_invalid_vrr_input_witness :
    ∃ s', handle_command sample_env vrr_running "VRR".toList "abc".toList = some s' ∧
      s'.spawned = vrr_running.spawned ∧ s'.mode = vrr_running.mode ∧
      s'.alive = [] ∧ s'.vrr_pattern = [] := by
  obtain ⟨s', h1, h2, h3, _, _, _, h4, _, h5, _⟩ :=
    C8_invalid_vrr_input sample_env 1000 _ vrr_running "abc".toList run_vrr_running
      (Or.inr rfl) (by decide)
  exact ⟨s', h1, h2, h3, h4, h5⟩

/-- Counterexample to C8 as stated: with a variable-rate worker running on the pattern
`100,2:50,3`, the command `VRR` with the input `abc` (zero valid segments) ends with no
worker alive, the stop flag set and the stored pattern empty. -/
theorem C8_counterexample :
    run sample_env (initial_state 1000) [Event.command "VRR".toList "100,2:50,3".toList]
        = some vrr_running ∧
      parse_pattern "abc".toList = [] ∧
      handle_command sample_env vrr_running "VRR".toList "abc".toList = some vrr_rejected ∧
      vrr_running.alive = [{ id := 0, body := Worker.vrr_loop }] ∧ vrr_rejected.alive = [] ∧
      vrr_running.stop_flag = false ∧ vrr_rejected.stop_flag = true ∧
      vrr_running.vrr_pattern = [(100, 2), (50, 3)] ∧ vrr_rejected.vrr_pattern = [] :=
  ⟨run_vrr_running, by decide, handle_vrr_rejected, rfl, rfl, rfl, rfl, rfl, rfl⟩

/-- Amended C10: in every reachable state whose frames are loaded or can be loaded, the
`VRR` command stores as `vrr_pattern` the segments of the input on which
`sscanf(.., "%d,%d", ..)` converts two integers, in input order, the other pieces being
skipped one by one; it starts a worker exactly when that sequence is non-empty, and the
worker is then the only one alive, in mode `VRR`.  Rate and count are stored as the `int`
values the conversions yield, whatever their sign. -/
theorem C10_vrr_pattern_stored (env : Env) (frame_rate : ℚ) (events : List Event) (s : State)
    (line : List Char) (hrun : run env (initial_state frame_rate) events = some s)
    (hload : s.frames_buffer ≠ [] ∨ env.file.isSome = true) :
    ∃ s', handle_command env s "VRR".toList line = some s' ∧
      s'.vrr_pattern = (getline_pieces line []).filterMap sscanf_d_d ∧
      (s'.spawned = s.spawned + 1 ↔ s'.vrr_pattern ≠ []) ∧
      (s'.spawned = s.spawned ↔ s'.vrr_pattern = []) ∧
      (s'.vrr_pattern ≠ [] →
        s'.alive = [{ id := s.spawned, body := Worker.vrr_loop }] ∧
        s'.mode = PlaybackMode.VRR ∧ s'.stop_flag = false) := by
  have hs : Coherent s := run_coherent env events _ s (coherent_initial frame_rate) hrun
  obtain ⟨s', hc, hpat, _, _, _, _, hempty, hne⟩ := cmd_VRR_spec env s line hs hload
  have hparse : parse_pattern line = (getline_pieces line []).filterMap sscanf_d_d := by
    unfold parse_pattern
    rw [parse_loop_eq]
    simp
  refine ⟨s', by rw [handle_command_VRR]; exact hc, by rw [hpat, hparse], ?_, ?_, ?_⟩
  · constructor
    · intro hsp hnil
      rw [hpat] at hnil
      have := (hempty hnil).1
      omega
    · intro hnn
      rw [hpat] at hnn
      exact (hne hnn).1
  · constructor
    · intro hsp
      by_contra hnn
      rw [hpat] at hnn
      have := (hne hnn).1
      omega
    · intro hnil
      rw [hpat] at hnil
      exact (hempty hnil).1
  · intro hnn
    rw [hpat] at hnn
    obtain ⟨_, h2, _, h4, h5, _⟩ := hne hnn
    exact ⟨h2, h4, h5⟩

/-- Witness of C10 (amended): the input `abc: 100, 7x:5 ,3:-4,+2::99999999999,1:` stores
the three segments that convert, in order; the rate written `99999999999` is stored as the
`int` 1215752191. -/
theorem C10_vrr_pattern_stored_witness :
    ∃ s', handle_command sample_env vrr_running "VRR".toList
        "abc: 100, 7x:5 ,3:-4,+2::99999999999,1:".toList = some s' ∧
      s'.vrr_pattern = [(100, 7), (-4, 2), (1215752191, 1)] ∧
      s'.alive = [{ id := 1, body := Worker.vrr_loop }] := by
  obtain ⟨s', h1, h2, _, _, h5⟩ :=
    C10_vrr_pattern_stored sample_env 1000 _ vrr_running
      "abc: 100, 7x:5 ,3:-4,+2::99999999999,1:".toList run_vrr_running (Or.inr rfl)
  have hp : (getline_pieces "abc: 100, 7x:5 ,3:-4,+2::99999999999,1:".toList []).filterMap
      sscanf_d_d = [(100, 7), (-4, 2), (1215752191, 1)] := by decide
  rw [hp] at h2
  exact ⟨s', h1, h2, (h5 (by rw [h2]; decide)).1⟩

/-- Counterexample to C10 as stated: the input `0,0` starts a variable-rate worker with the
stored pattern `[(0, 0)]`, whose rate and count are not positive. -/
theorem C10_counterexample :
    handle_command sample_env (initial_state 1000) "VRR".toList "0,0".toList = some vrr_zero ∧
      vrr_zero.alive = [{ id := 0, body := Worker.vrr_loop }] ∧
      vrr_zero.spawned = (initial_state 1000).spawned + 1 ∧
      vrr_zero.vrr_pattern = [(0, 0)] ∧
      ¬ (∀ seg ∈ vrr_zero.vrr_pattern, 0 < seg.1 ∧ 0 < seg.2) :=
  ⟨handle_vrr_zero, rfl, rfl, rfl, by decide⟩

end FrameSender
